import Mathlib

/-!
# Verification of the stori financial-analytics engine

Shallow embedding of the analytics code of `src/backend` (timeline, expenses
and AI modules) and proofs of the spec's claims about it.

Conventions of the embedding:
* Python `date` values are represented by their proleptic-Gregorian ordinal
  (`date.toordinal`), an `ℤ`; ordinal 1 is 0001-01-01, a Monday.
  `civilToOrd`/`ordToCivil` convert between `(year, month, day)` triples and
  ordinals (Gregorian calendar, same algorithm family as CPython's).
* `Decimal` and `float` amounts are both modelled as exact rationals `ℚ`.
* Python dicts are modelled as insertion-ordered association lists, matching
  dict iteration order; `list.sort` / `sorted` are modelled by a stable
  insertion sort (`stableSortBy`).
* Code that can raise (`date.replace` on an invalid date, `ZeroDivisionError`,
  a loop that might not finish) is modelled in `Option`, `none` meaning the
  Python call does not return normally.
-/

namespace Stori

/-! ## Calendar: Python `date` as proleptic-Gregorian ordinals -/

/-- Gregorian leap-year rule (`calendar.isleap`). -/
def isLeapYear (y : ℤ) : Bool :=
  y.emod 4 == 0 && (y.emod 100 != 0 || y.emod 400 == 0)

/-- Number of days in month `m` of year `y`. -/
def daysInMonth (y m : ℤ) : ℤ :=
  if m = 2 then (if isLeapYear y then 29 else 28)
  else if m = 4 ∨ m = 6 ∨ m = 9 ∨ m = 11 then 30
  else 31

/-- `date(y, m, d).toordinal()`: civil date to ordinal (days-from-civil
algorithm shifted so that 0001-01-01 ↦ 1). -/
def civilToOrd (y m d : ℤ) : ℤ :=
  let y2 := if m ≤ 2 then y - 1 else y
  let era := y2.ediv 400
  let yoe := y2 - era * 400
  let doy := ((153 * (m + (if m > 2 then -3 else 9)) + 2).ediv 5) + d - 1
  let doe := yoe * 365 + yoe.ediv 4 - yoe.ediv 100 + doy
  era * 146097 + doe - 305

/-- `date.fromordinal`: ordinal to `(year, month, day)` (civil-from-days
algorithm, inverse of `civilToOrd`). -/
def ordToCivil (o : ℤ) : ℤ × ℤ × ℤ :=
  let z := o + 305
  let era := z.ediv 146097
  let doe := z - era * 146097
  let yoe := (doe - doe.ediv 1460 + doe.ediv 36524 - doe.ediv 146096).ediv 365
  let y := yoe + era * 400
  let doy := doe - (365 * yoe + yoe.ediv 4 - yoe.ediv 100)
  let mp := (5 * doy + 2).ediv 153
  let d := doy - (153 * mp + 2).ediv 5 + 1
  let m := if mp < 10 then mp + 3 else mp - 9
  (if m ≤ 2 then y + 1 else y, m, d)

/-- Python `date.weekday()`: 0 = Monday … 6 = Sunday.  Ordinal 1
(0001-01-01) is a Monday. -/
def pyWeekday (o : ℤ) : ℤ := (o - 1).emod 7

/-! ## Core data model -/

inductive TxnType where
  | income
  | expense
deriving DecidableEq, Repr

/-- A row of the `transactions` table, as the analytics code reads it
(`core/models.py` `Transaction`; amounts exact rationals). -/
structure Txn where
  tid : ℕ
  amount : ℚ
  category : String
  ttype : TxnType
  tdate : ℤ
deriving DecidableEq, Repr

/-- `TimelineGrouping` (`timeline/schemas.py`). -/
inductive Grouping where
  | daily
  | weekly
  | monthly
  | yearly
deriving DecidableEq, Repr

/-- `TimelineRepository._get_period_key` (`timeline/repository.py:265-275`):
canonical bucket key of a date under a grouping. -/
def periodKey (g : Grouping) (o : ℤ) : ℤ :=
  match g with
  | .daily => o
  | .weekly => o - pyWeekday o
  | .monthly => let c := ordToCivil o; civilToOrd c.1 c.2.1 1
  | .yearly => let c := ordToCivil o; civilToOrd c.1 1 1

/-! ## Stable sorting (Python `list.sort` / `sorted`) -/

/-- Insert `x` into `l`, keeping every `y` with `le y x` before `x`
(so equal elements keep their original relative order). -/
def insertSortedBy {α : Type} (le : α → α → Bool) (x : α) : List α → List α
  | [] => [x]
  | y :: ys => if le y x then y :: insertSortedBy le x ys else x :: y :: ys

/-- Stable sort with respect to `le` (models Python's stable `list.sort`). -/
def stableSortBy {α : Type} (le : α → α → Bool) (l : List α) : List α :=
  l.foldl (fun acc x => insertSortedBy le x acc) []

/-! ## Timeline aggregation (`TimelineRepository.get_timeline_data`,
`timeline/repository.py:22-117`)

The Supabase query is modelled by `applyTimelineQuery`: it filters the
transaction table by the request's filters and orders by date, exactly the
clauses the code chains onto the query.  The grouping loop is modelled by a
left fold over an insertion-ordered bucket list (a Python dict). -/

/-- `TimelineFilters` (`timeline/schemas.py`). -/
structure TFilters where
  startDate : Option ℤ
  endDate : Option ℤ
  grouping : Grouping
  categories : List String
  includeIncome : Bool
  includeExpenses : Bool
  minAmount : Option ℚ
  maxAmount : Option ℚ
deriving DecidableEq, Repr

/-- One clause of the query: does transaction `t` pass filter `f`?
Mirrors the `gte`/`lte`/`in_` clauses of `get_timeline_data`; note that
Python's `if filters.min_amount:` skips the clause when the filter is `None`
or zero (falsy), and that an empty `type_filters` list disables the type
clause. -/
def passesFilters (f : TFilters) (t : Txn) : Bool :=
  (match f.startDate with | some s => s ≤ t.tdate | none => true)
  && (match f.endDate with | some e => t.tdate ≤ e | none => true)
  && (f.categories.isEmpty || f.categories.contains t.category)
  && (match f.minAmount with | some m => m == 0 || m ≤ t.amount | none => true)
  && (match f.maxAmount with | some m => m == 0 || t.amount ≤ m | none => true)
  && (if f.includeIncome || f.includeExpenses then
        (f.includeIncome && t.ttype == .income)
          || (f.includeExpenses && t.ttype == .expense)
      else true)

/-- The query of `get_timeline_data`: filter, then `order('date')`
(stable, like the database's order-by on the fetched rows). -/
def applyTimelineQuery (f : TFilters) (table : List Txn) : List Txn :=
  stableSortBy (fun a b => a.tdate ≤ b.tdate) (table.filter (passesFilters f))

/-- One entry of `grouped_data` in `get_timeline_data` (a dict value). -/
structure TBucket where
  bdate : ℤ
  incomeTxns : List Txn
  expenseTxns : List Txn
  total_income : ℚ
  total_expenses : ℚ
  txnCount : ℕ
deriving DecidableEq, Repr

def emptyTBucket (key : ℤ) : TBucket :=
  { bdate := key, incomeTxns := [], expenseTxns := [],
    total_income := 0, total_expenses := 0, txnCount := 0 }

/-- The body of the grouping loop applied to one transaction: bump the
count, then add the amount to the income or expense side. -/
def bumpTBucket (t : Txn) (b : TBucket) : TBucket :=
  let b := { b with txnCount := b.txnCount + 1 }
  match t.ttype with
  | .income =>
      { b with incomeTxns := b.incomeTxns ++ [t],
               total_income := b.total_income + t.amount }
  | .expense =>
      { b with expenseTxns := b.expenseTxns ++ [t],
               total_expenses := b.total_expenses + t.amount }

/-- Replace the first bucket keyed `key` by its image under `f`. -/
def updateTBucket (key : ℤ) (f : TBucket → TBucket) : List TBucket → List TBucket
  | [] => []
  | b :: bs => if b.bdate = key then f b :: bs else b :: updateTBucket key f bs

/-- One iteration of the grouping loop of `get_timeline_data`: create the
bucket if its key is new (dicts append new keys at the end), then update
it. -/
def addTimelineTxn (g : Grouping) (acc : List TBucket) (t : Txn) : List TBucket :=
  let key := periodKey g t.tdate
  if acc.any (fun b => b.bdate == key) then
    updateTBucket key (bumpTBucket t) acc
  else
    acc ++ [bumpTBucket t (emptyTBucket key)]

/-- A `TimelineDataPoint` (`timeline/schemas.py`): the per-period metrics
computed in the second loop of `get_timeline_data`. -/
structure TimelinePoint where
  pdate : ℤ
  total_income : ℚ
  total_expenses : ℚ
  net_amount : ℚ
  transaction_count : ℕ
  largest_expense : Option ℚ
  largest_income : Option ℚ
deriving DecidableEq, Repr

/-- The "additional metrics" pass of `get_timeline_data`:
`net_amount = total_income - total_expenses`, plus the largest raw income
and expense amounts (absent when the period has none). -/
def finishTBucket (b : TBucket) : TimelinePoint :=
  { pdate := b.bdate, total_income := b.total_income,
    total_expenses := b.total_expenses,
    net_amount := b.total_income - b.total_expenses,
    transaction_count := b.txnCount,
    largest_expense := (b.expenseTxns.map (fun t => t.amount)).max?,
    largest_income := (b.incomeTxns.map (fun t => t.amount)).max? }

/-- `get_timeline_data`: query, group into period buckets, compute the
per-period metrics.  Returns buckets in dict insertion order (first
occurrence of each period among the date-ordered rows). -/
def getTimelineData (f : TFilters) (table : List Txn) : List TimelinePoint :=
  ((applyTimelineQuery f table).foldl (addTimelineTxn f.grouping) []).map finishTBucket

/-- Project the four aggregate fields of the bucket keyed `key`, if any
(the fields claim C9 is about). -/
def bucketTotals (pts : List TimelinePoint) (key : ℤ) : Option (ℚ × ℚ × ℚ × ℕ) :=
  (pts.find? (fun b => b.pdate == key)).map
    (fun b => (b.total_income, b.total_expenses, b.net_amount, b.transaction_count))

/-! ### Closed form of the grouping fold -/

/-- The transactions of `l` that fall in the period `key`. -/
def periodTxns (g : Grouping) (key : ℤ) (l : List Txn) : List Txn :=
  l.filter (fun t => periodKey g t.tdate == key)

/-- Sum of the (signed) amounts of the income transactions of `l`. -/
def incomeSum (l : List Txn) : ℚ :=
  ((l.filter (fun t => t.ttype == TxnType.income)).map (fun t => t.amount)).sum

/-- Sum of the (signed) amounts of the expense transactions of `l`. -/
def expenseSum (l : List Txn) : ℚ :=
  ((l.filter (fun t => t.ttype == TxnType.expense)).map (fun t => t.amount)).sum

/-- Accumulate the transactions of one period into a bucket. -/
def foldTBucket (b : TBucket) (l : List Txn) : TBucket :=
  l.foldl (fun b t => bumpTBucket t b) b

/-! ## Expense trends (`ExpenseRepository.get_expense_trends`,
`expenses/repository.py:89-147`)

This is the aggregation that produces per-period `category_amounts`
(the per-bucket category totals of the spec's `AggregateBucket`).  Its
inline period-key code matches `_get_period_key` except that the weekly
branch evaluates `datetime.timedelta`, an `AttributeError` on the
`datetime` class — modelled as `none`. -/

/-- Python dict accumulation `d[cat] = d.get-or-0 + amt`, new keys appended
at the end (dict insertion order). -/
def addToAssoc (cat : String) (amt : ℚ) : List (String × ℚ) → List (String × ℚ)
  | [] => [(cat, 0 + amt)]
  | (c, v) :: rest =>
      if c = cat then (c, v + amt) :: rest else (c, v) :: addToAssoc cat amt rest

/-- One entry of the `trends` dict in `get_expense_trends`. -/
structure TrendBucket where
  bdate : ℤ
  total_amount : ℚ
  category_amounts : List (String × ℚ)
  transaction_count : ℕ
deriving DecidableEq, Repr

def emptyTrendBucket (key : ℤ) : TrendBucket :=
  { bdate := key, total_amount := 0, category_amounts := [], transaction_count := 0 }

/-- Loop body of `get_expense_trends` for one transaction. -/
def bumpTrendBucket (t : Txn) (b : TrendBucket) : TrendBucket :=
  { b with total_amount := b.total_amount + t.amount,
           transaction_count := b.transaction_count + 1,
           category_amounts := addToAssoc t.category t.amount b.category_amounts }

def updateTrendBucket (key : ℤ) (f : TrendBucket → TrendBucket) :
    List TrendBucket → List TrendBucket
  | [] => []
  | b :: bs => if b.bdate = key then f b :: bs else b :: updateTrendBucket key f bs

/-- The period-key computation inlined in `get_expense_trends`; the weekly
branch raises (`datetime.timedelta` does not exist). -/
def trendPeriodKey (g : Grouping) (o : ℤ) : Option ℤ :=
  match g with
  | .daily => some o
  | .weekly => none
  | .monthly => some (periodKey .monthly o)
  | .yearly => some (periodKey .yearly o)

/-- One grouping step of `get_expense_trends` given the computed key. -/
def addTrendCore (key : ℤ) (acc : List TrendBucket) (t : Txn) : List TrendBucket :=
  if acc.any (fun b => b.bdate == key) then
    updateTrendBucket key (bumpTrendBucket t) acc
  else
    acc ++ [bumpTrendBucket t (emptyTrendBucket key)]

/-- One iteration of the loop of `get_expense_trends`; `none` once any
iteration has raised. -/
def addTrendTxn (g : Grouping) (acc : Option (List TrendBucket)) (t : Txn) :
    Option (List TrendBucket) :=
  acc.bind fun acc =>
    (trendPeriodKey g t.tdate).map fun key => addTrendCore key acc t

/-- `get_expense_trends`: query expense rows in range ordered by date, then
group into period buckets with per-category totals. -/
def getExpenseTrends (g : Grouping) (startD endD : ℤ) (table : List Txn) :
    Option (List TrendBucket) :=
  let q := stableSortBy (fun a b => a.tdate ≤ b.tdate)
    (table.filter (fun t =>
      t.ttype == TxnType.expense && (startD ≤ t.tdate && t.tdate ≤ endD)))
  q.foldl (addTrendTxn g) (some [])

/-- The category total recorded for `cat` in the period `key`, if present. -/
def trendCategoryTotal (trends : Option (List TrendBucket)) (key : ℤ)
    (cat : String) : Option ℚ :=
  trends.bind fun bs =>
    (bs.find? (fun b => b.bdate == key)).bind fun b =>
      (b.category_amounts.find? (fun p => p.1 == cat)).map (fun p => p.2)

/-! ### Closed form of the trends fold -/

/-- Sum of the amounts of the transactions of `l` in category `cat`. -/
def catSum (cat : String) (l : List Txn) : ℚ :=
  ((l.filter (fun t => t.category == cat)).map (fun t => t.amount)).sum

def assocVal (m : List (String × ℚ)) (cat : String) : Option ℚ :=
  (m.find? (fun p => p.1 == cat)).map (fun p => p.2)

def foldTrendBucket (b : TrendBucket) (l : List Txn) : TrendBucket :=
  l.foldl (fun b t => bumpTrendBucket t b) b

/-! ## Expense summary (`ExpenseRepository.get_expense_summary`,
`expenses/repository.py:22-87`, and
`ExpenseService.get_expense_summary`, `expenses/service.py:29-93`) -/

/-- Joint entry of the `category_totals` / `category_counts` dicts
(built in lock-step by the repository loop). -/
structure CatStat where
  cat : String
  total : ℚ
  count : ℕ
deriving DecidableEq, Repr

/-- The summary dict returned by the repository. -/
structure ExpSummaryData where
  total_expenses : ℚ
  total_income : ℚ
  cats : List CatStat
  txnCount : ℕ
deriving DecidableEq, Repr

/-- `category_totals[cat] += amt; category_counts[cat] += 1` with
zero-initialisation of new keys (appended in dict insertion order). -/
def addCatStat (cat : String) (amt : ℚ) : List CatStat → List CatStat
  | [] => [⟨cat, 0 + amt, 0 + 1⟩]
  | c :: rest =>
      if c.cat = cat then
        { c with total := c.total + amt, count := c.count + 1 } :: rest
      else c :: addCatStat cat amt rest

/-- Loop body of the repository's `get_expense_summary`. -/
def addSummaryTxn (s : ExpSummaryData) (t : Txn) : ExpSummaryData :=
  match t.ttype with
  | .expense =>
      { s with total_expenses := s.total_expenses + t.amount,
               cats := addCatStat t.category t.amount s.cats }
  | .income => { s with total_income := s.total_income + t.amount }

/-- `get_expense_summary` (repository): totals and per-category stats over
the queried transactions; `transaction_count` is the row count. -/
def expenseSummaryData (txns : List Txn) : ExpSummaryData :=
  { txns.foldl addSummaryTxn ⟨0, 0, [], 0⟩ with txnCount := txns.length }

/-- `CategorySummaryResponse` (`expenses/schemas.py`), as built by the
service. -/
structure CatSummary where
  category : String
  total_amount : ℚ
  transaction_count : ℕ
  percentage_of_total : ℚ
  avg_amount : ℚ
deriving DecidableEq, Repr

/-- Service-side per-category record (`expenses/service.py:62-73`):
`percentage = total/total_expenses*100 if total_expenses > 0 else 0`,
`avg = total/count if count > 0 else 0`. -/
def mkCatSummary (totalExpenses : ℚ) (c : CatStat) : CatSummary :=
  { category := c.cat, total_amount := c.total, transaction_count := c.count,
    percentage_of_total :=
      if totalExpenses > 0 then c.total / totalExpenses * 100 else 0,
    avg_amount := if c.count > 0 then c.total / (c.count : ℚ) else 0 }

/-- `category_breakdown.sort(key=..., reverse=True)`
(`expenses/service.py:76`): a stable sort, descending by `total_amount`
only. -/
def categoryBreakdown (s : ExpSummaryData) : List CatSummary :=
  stableSortBy (fun a b => b.total_amount ≤ a.total_amount)
    (s.cats.map (mkCatSummary s.total_expenses))

/-! ## Mock timeline (`TimelineService._get_mock_timeline`,
`timeline/service.py:299-394`): the duplicated aggregation path that
presents expense magnitudes via `abs`. -/

/-- `defaultdict(list)` grouping by period key, groups in first-occurrence
order and each group's transactions in input order. -/
def addToGroups (key : ℤ) (t : Txn) : List (ℤ × List Txn) → List (ℤ × List Txn)
  | [] => [(key, [t])]
  | g :: gs => if g.1 = key then (g.1, g.2 ++ [t]) :: gs else g :: addToGroups key t gs

def groupByPeriod (g : Grouping) (txns : List Txn) : List (ℤ × List Txn) :=
  txns.foldl (fun acc t => addToGroups (periodKey g t.tdate) t acc) []

/-- One `TimelineDataPoint` of the mock path: income summed raw, expenses
summed as `abs`, largest values with `default=0`. -/
def mockTimelinePoint (d : ℤ) (ts : List Txn) : TimelinePoint :=
  let incomeTxs := ts.filter (fun t => t.ttype == TxnType.income)
  let expenseTxs := ts.filter (fun t => t.ttype == TxnType.expense)
  let periodIncome := (incomeTxs.map (fun t => t.amount)).sum
  let periodExpenses := (expenseTxs.map (fun t => |t.amount|)).sum
  { pdate := d, total_income := periodIncome, total_expenses := periodExpenses,
    net_amount := periodIncome - periodExpenses,
    transaction_count := ts.length,
    largest_expense := some (((expenseTxs.map (fun t => |t.amount|)).max?).getD 0),
    largest_income := some (((incomeTxs.map (fun t => t.amount)).max?).getD 0) }

/-- `_get_mock_timeline`: filter to the date range, group by period,
build the data points, sort ascending by date. -/
def mockTimelinePoints (g : Grouping) (startD endD : ℤ) (txns : List Txn) :
    List TimelinePoint :=
  stableSortBy (fun a b => a.pdate ≤ b.pdate)
    ((groupByPeriod g (txns.filter (fun t => startD ≤ t.tdate && t.tdate ≤ endD))).map
      (fun p => mockTimelinePoint p.1 p.2))

/-! ## Concrete transactions of the spec's scenarios -/

/-- 2024-01-02, expense, −30, food (signed storage, `core/models.py`). -/
def txFood30 : Txn := ⟨1, -30, "food", .expense, civilToOrd 2024 1 2⟩

/-- 2024-01-05, income, 1000, salary. -/
def txSalary1000 : Txn := ⟨2, 1000, "salary", .income, civilToOrd 2024 1 5⟩

/-- 2024-01-09, expense, −20, food. -/
def txFood20 : Txn := ⟨3, -20, "food", .expense, civilToOrd 2024 1 9⟩

/-- A `TimelineFilters` with monthly grouping and no optional filters. -/
def monthlyFilters : TFilters :=
  ⟨none, none, .monthly, [], true, true, none, none⟩

/-- `avg_income` / `avg_expenses` in `get_timeline`
(`timeline/service.py:86-87`): `total / len(data_points) if data_points
else 0`. -/
def timelineAvg (total : ℚ) (points : List TimelinePoint) : ℚ :=
  if points.isEmpty then 0 else total / (points.length : ℚ)

/-- Ten expense rows with mixed-sign amounts summing to zero: one `+9` and
nine `-1`.  (Rows of both signs can coexist in the `transactions` table —
the timeline tests insert positive expense amounts while `core/models.py`
mandates negative ones.) -/
def mixedTxns : List Txn :=
  [⟨1, 9, "shopping", .expense, 0⟩,
   ⟨2, -1, "dining", .expense, 0⟩, ⟨3, -1, "dining", .expense, 0⟩,
   ⟨4, -1, "dining", .expense, 0⟩, ⟨5, -1, "dining", .expense, 0⟩,
   ⟨6, -1, "dining", .expense, 0⟩, ⟨7, -1, "dining", .expense, 0⟩,
   ⟨8, -1, "dining", .expense, 0⟩, ⟨9, -1, "dining", .expense, 0⟩,
   ⟨10, -1, "dining", .expense, 0⟩]

/-- Ten signed expense rows (the storage convention `core/models.py`
validates): nine of −10 and one of −8, listed amount-descending as the
anomaly query fetches them. -/
def negTxns : List Txn :=
  [⟨1, -8, "rent", .expense, 0⟩,
   ⟨2, -10, "rent", .expense, 0⟩, ⟨3, -10, "rent", .expense, 0⟩,
   ⟨4, -10, "rent", .expense, 0⟩, ⟨5, -10, "rent", .expense, 0⟩,
   ⟨6, -10, "rent", .expense, 0⟩, ⟨7, -10, "rent", .expense, 0⟩,
   ⟨8, -10, "rent", .expense, 0⟩, ⟨9, -10, "rent", .expense, 0⟩,
   ⟨10, -10, "rent", .expense, 0⟩]

/-! ## Cash flow (`TimelineRepository.get_cash_flow_data`,
`timeline/repository.py:174-263`, `TimelineService.get_cash_flow`,
`timeline/service.py:171-232`, and `TimelineService._get_mock_cash_flow`,
`timeline/service.py:468-551`) -/

/-- One `grouped_data` entry in `get_cash_flow_data` (the provisional
`opening_balance` written during period generation is overwritten by the
final walk and is not modelled). -/
structure CFBucket where
  bdate : ℤ
  total_income : ℚ
  total_expenses : ℚ
  txns : List Txn
deriving DecidableEq, Repr

def emptyCFBucket (key : ℤ) : CFBucket := ⟨key, 0, 0, []⟩

/-- Python's `date.replace`-based step to the next period start
(`timeline/repository.py:213-224`); `none` models the `ValueError` raised by
`replace` on an invalid day-of-month (e.g. Jan 31 → monthly → Feb 31).
A December monthly step and any daily/weekly step always succeed. -/
def stepDate (g : Grouping) (o : ℤ) : Option ℤ :=
  match g with
  | .daily => some (o + 1)
  | .weekly => some (o + 7)
  | .monthly =>
      let c := ordToCivil o
      if c.2.1 = 12 then some (civilToOrd (c.1 + 1) 1 c.2.2)
      else if c.2.2 ≤ daysInMonth c.1 (c.2.1 + 1) then
        some (civilToOrd c.1 (c.2.1 + 1) c.2.2)
      else none
  | .yearly =>
      let c := ordToCivil o
      if c.2.2 ≤ daysInMonth (c.1 + 1) c.2.1 then
        some (civilToOrd (c.1 + 1) c.2.1 c.2.2)
      else none

/-- The period-generation `while` loop of `get_cash_flow_data`
(lines 199-224): one zero bucket per period key from `start` to `end`.
Python's loop is unbounded; every step advances the date by at least one
day, so `(end - start).toNat + 1` iterations always suffice, and running
out of fuel (which would mean a non-advancing step, i.e. a Python loop
that never returns) is modelled as `none`. -/
def genPeriods (g : Grouping) (endD : ℤ) :
    ℕ → ℤ → List CFBucket → Option (List CFBucket)
  | 0, cur, acc => if cur ≤ endD then none else some acc
  | fuel + 1, cur, acc =>
      if cur ≤ endD then
        let key := periodKey g cur
        let acc2 :=
          if acc.any (fun b => b.bdate == key) then acc else acc ++ [emptyCFBucket key]
        match stepDate g cur with
        | none => none
        | some nxt => genPeriods g endD fuel nxt acc2
      else some acc

def updateCFBucket (key : ℤ) (f : CFBucket → CFBucket) :
    List CFBucket → List CFBucket
  | [] => []
  | b :: bs => if b.bdate = key then f b :: bs else b :: updateCFBucket key f bs

/-- The transaction pass of `get_cash_flow_data` (lines 227-240): append
the row and add its amount into its period bucket, but only if that period
was materialised (`if period_key in grouped_data`). -/
def addCFTxn (g : Grouping) (acc : List CFBucket) (t : Txn) : List CFBucket :=
  let key := periodKey g t.tdate
  if acc.any (fun b => b.bdate == key) then
    updateCFBucket key (fun b =>
      let b2 := { b with txns := b.txns ++ [t] }
      match t.ttype with
      | .income => { b2 with total_income := b2.total_income + t.amount }
      | .expense => { b2 with total_expenses := b2.total_expenses + t.amount }) acc
  else acc

/-- `CashFlowPoint` (`timeline/schemas.py`). -/
structure CFPoint where
  pdate : ℤ
  opening_balance : ℚ
  total_income : ℚ
  total_expenses : ℚ
  closing_balance : ℚ
  net_change : ℚ
deriving DecidableEq, Repr

/-- The running-balance walk of `get_cash_flow_data` (lines 243-257):
`net_change = total_income - total_expenses`,
`closing_balance = opening_balance + net_change`, and the balance carries
into the next period. -/
def buildCFPoints (bal : ℚ) : List CFBucket → List CFPoint
  | [] => []
  | b :: bs =>
      let net := b.total_income - b.total_expenses
      { pdate := b.bdate, opening_balance := bal, total_income := b.total_income,
        total_expenses := b.total_expenses, closing_balance := bal + net,
        net_change := net } :: buildCFPoints (bal + net) bs

/-- `get_cash_flow_data`: query the range's rows date-ordered, materialise
every period of the range, add the rows, then walk the periods in ascending
date order (`periods = sorted(grouped_data.keys())`, modelled by sorting
the buckets by their distinct keys). -/
def getCashFlowData (g : Grouping) (startD endD : ℤ) (bal : ℚ)
    (table : List Txn) : Option (List CFPoint) :=
  let q := stableSortBy (fun a b => a.tdate ≤ b.tdate)
    (table.filter (fun t => startD ≤ t.tdate && t.tdate ≤ endD))
  match genPeriods g endD ((endD - startD).toNat + 1) startD [] with
  | none => none
  | some buckets =>
      some (buildCFPoints bal
        (stableSortBy (fun a b => a.bdate ≤ b.bdate) (q.foldl (addCFTxn g) buckets)))

/-- `CashFlowResponse` (`timeline/schemas.py`), fields the claims use. -/
structure CFResponse where
  points : List CFPoint
  starting_balance : ℚ
  ending_balance : ℚ
  total_income : ℚ
  total_expenses : ℚ
  net_cash_flow : ℚ
deriving DecidableEq, Repr

/-- The assembly in `get_cash_flow` (`timeline/service.py:192-228`): sum
the per-point totals, re-sort the points by date, take the last closing
balance (or the starting balance when there are no points), and set
`net_cash_flow = total_income - total_expenses`. -/
def assembleCashFlow (bal : ℚ) (data : List CFPoint) : CFResponse :=
  let ti := (data.map (fun p => p.total_income)).sum
  let te := (data.map (fun p => p.total_expenses)).sum
  let pts := stableSortBy (fun a b => a.pdate ≤ b.pdate) data
  let ending := match pts.getLast? with
    | some p => p.closing_balance
    | none => bal
  ⟨pts, bal, ending, ti, te, ti - te⟩

/-- `get_cash_flow` = repository data + service assembly. -/
def getCashFlow (g : Grouping) (startD endD : ℤ) (bal : ℚ)
    (table : List Txn) : Option CFResponse :=
  (getCashFlowData g startD endD bal table).map (assembleCashFlow bal)

/-- One period bucket of `_get_mock_cash_flow`: income summed raw, expenses
summed as `abs`. -/
def mockCFBucket (d : ℤ) (ts : List Txn) : CFBucket :=
  ⟨d, ((ts.filter (fun t => t.ttype == TxnType.income)).map (fun t => t.amount)).sum,
    ((ts.filter (fun t => t.ttype == TxnType.expense)).map (fun t => |t.amount|)).sum,
    ts⟩

/-- `_get_mock_cash_flow`'s points: group the range's transactions by
period, walk the periods chronologically with the running balance. -/
def mockCashFlowPoints (g : Grouping) (startD endD : ℤ) (bal : ℚ)
    (txns : List Txn) : List CFPoint :=
  buildCFPoints bal
    (stableSortBy (fun a b => a.bdate ≤ b.bdate)
      ((groupByPeriod g (txns.filter (fun t => startD ≤ t.tdate && t.tdate ≤ endD))).map
        (fun p => mockCFBucket p.1 p.2)))

/-- `_get_mock_cash_flow`'s response. -/
def mockCashFlowResponse (g : Grouping) (startD endD : ℤ) (bal : ℚ)
    (txns : List Txn) : CFResponse :=
  let pts := mockCashFlowPoints g startD endD bal txns
  let ti := (pts.map (fun p => p.total_income)).sum
  let te := (pts.map (fun p => p.total_expenses)).sum
  let ending := match pts.getLast? with
    | some p => p.closing_balance
    | none => bal
  ⟨pts, bal, ending, ti, te, ti - te⟩

/-! ## Spending velocity (`TimelineService.get_spending_velocity`,
`timeline/service.py:234-297`)

`points` are the `total_expenses` values of the date-sorted daily data
points of `get_timeline` under an expense-only query (one value per day
that has at least one expense row); `days` is the request's window. -/

structure VelocityResult where
  daily_avg : ℚ
  velocity_trend : String
  days_analyzed : ℕ
  total_spent : ℚ
deriving DecidableEq, Repr

/-- `get_spending_velocity`: with no data points, zeros and `'stable'`
with `days_analyzed = days`; otherwise the average is over the number of
data points, the halves split at `len // 2` (`[:mid]` / `[mid:]`), and the
trend compares the second half's mean against 1.1 resp. 0.9 times the
first half's. -/
def getSpendingVelocity (points : List ℚ) (days : ℕ) : VelocityResult :=
  if points.isEmpty then ⟨0, "stable", days, 0⟩
  else
    let total := points.sum
    let dailyAvg := total / (points.length : ℚ)
    let mid := points.length / 2
    let firstHalfAvg :=
      if 0 < mid then (points.take mid).sum / (mid : ℚ) else 0
    let secondHalfAvg :=
      if 0 < points.length - mid then
        (points.drop mid).sum / ((points.length - mid : ℕ) : ℚ)
      else 0
    let trend :=
      if secondHalfAvg > firstHalfAvg * (11/10 : ℚ) then "increasing"
      else if secondHalfAvg < firstHalfAvg * (9/10 : ℚ) then "decreasing"
      else "stable"
    ⟨dailyAvg, trend, points.length, total⟩

/-! ## Anomaly detection (`AIRepository.get_anomalies`,
`ai/repository.py:197-248`)

The query fetches the window's expense rows ordered by amount descending;
the function is modelled over the fetched list.  The source compares
`amount > avg + 2 * stddev` with `stddev = variance ** 0.5` in real
arithmetic; over exact rationals this comparison is expressed in the
equivalent squared form (for `variance ≥ 0`:
`x > μ + 2·√v  ↔  x - μ > 0 ∧ (x - μ)² > 4·v`). -/

structure AnomalyRecord where
  transaction_id : ℕ
  amount : ℚ
  category : String
  adate : ℤ
  deviation_factor : ℚ
deriving DecidableEq, Repr

/-- `amount > anomaly_threshold` where
`anomaly_threshold = avg + 2 * sqrt variance`, in squared form. -/
def exceedsThreshold (x avg variance : ℚ) : Bool :=
  0 < x - avg && 4 * variance < (x - avg) ^ 2

/-- The anomaly loop (`ai/repository.py:230-242`): each flagged row's
record carries `deviation_factor = amount / avg_amount` — computed with no
zero guard, so a flagged row with `avg = 0` raises `ZeroDivisionError`
(modelled as `none`). -/
def buildAnomalies (avg variance : ℚ) : List Txn → Option (List AnomalyRecord)
  | [] => some []
  | t :: ts =>
      if exceedsThreshold t.amount avg variance then
        if avg = 0 then none
        else
          match buildAnomalies avg variance ts with
          | none => none
          | some rest =>
              some (⟨t.tid, t.amount, t.category, t.tdate, t.amount / avg⟩ :: rest)
      else buildAnomalies avg variance ts

/-- `get_anomalies`: empty input short-circuits to `[]`; otherwise compute
the population mean and variance of the (raw, signed) amounts, flag rows
above the 2-standard-deviation threshold, and return the first 10. -/
def getAnomalies (txns : List Txn) : Option (List AnomalyRecord) :=
  if txns.isEmpty then some []
  else
    let amounts := txns.map (fun t => t.amount)
    let avg := amounts.sum / (amounts.length : ℚ)
    let variance := ((amounts.map (fun x => (x - avg) ^ 2)).sum) / (amounts.length : ℚ)
    (buildAnomalies avg variance txns).map (fun l => l.take 10)

/-- Modelled from the spec (the reading claim C8 asserts): compute mean and
population standard deviation of the ABSOLUTE expense amounts, flag the
transactions whose absolute amount strictly exceeds `μ + 2σ` (squared
comparison form as above), empty when fewer than 2 transactions; returns
the flagged transaction ids. -/
def specAbsAnomalyFlags (txns : List Txn) : List ℕ :=
  if txns.length < 2 then []
  else
    let amounts := txns.map (fun t => |t.amount|)
    let avg := amounts.sum / (amounts.length : ℚ)
    let variance := ((amounts.map (fun x => (x - avg) ^ 2)).sum) / (amounts.length : ℚ)
    (txns.filter (fun t => exceedsThreshold |t.amount| avg variance)).map
      (fun t => t.tid)

/-! ## Lemmas about the running-balance fold -/

/-- The two invariants claim C1 asserts of a list of cash-flow points:
every point closes at `opening + net_change`, and chronologically adjacent
points chain (`opening[i+1] = closing[i]`). -/
def balancedChain (pts : List CFPoint) : Prop :=
  (∀ i : Fin pts.length,
    (pts.get i).closing_balance = (pts.get i).opening_balance + (pts.get i).net_change) ∧
  (∀ i : ℕ, ∀ h : i + 1 < pts.length,
    (pts.get ⟨i + 1, h⟩).opening_balance =
      (pts.get ⟨i, Nat.lt_of_succ_lt h⟩).closing_balance)

/-! ## Theorems -/

theorem insertSortedBy_perm {α : Type} (le : α → α → Bool) (x : α) (l : List α) :
    List.Perm (insertSortedBy le x l) (x :: l) := by
  induction l with
  | nil => simp [insertSortedBy]
  | cons y ys ih =>
      simp only [insertSortedBy]
      by_cases h : le y x = true
      · simp only [h, if_true]
        exact ((ih.cons y).trans (List.Perm.swap x y ys))
      · simp [h]

theorem stableSortBy_perm {α : Type} (le : α → α → Bool) (l : List α) :
    List.Perm (stableSortBy le l) l := by
  suffices h : ∀ acc : List α,
      List.Perm (l.foldl (fun acc x => insertSortedBy le x acc) acc) (l ++ acc) by
    simpa [stableSortBy] using h []
  induction l with
  | nil => intro acc; simp
  | cons y ys ih =>
      intro acc
      simp only [List.foldl_cons]
      refine (ih (insertSortedBy le y acc)).trans ?_
      refine (List.Perm.append_left ys (insertSortedBy_perm le y acc)).trans ?_
      simp only [List.cons_append]
      exact List.perm_middle

theorem insertSortedBy_pairwise {α : Type} (le : α → α → Bool)
    (hTotal : ∀ a b, le a b = true ∨ le b a = true)
    (hTrans : ∀ a b c, le a b = true → le b c = true → le a c = true)
    (x : α) (l : List α) (hl : l.Pairwise (fun a b => le a b = true)) :
    (insertSortedBy le x l).Pairwise (fun a b => le a b = true) := by
  induction l with
  | nil => simp [insertSortedBy]
  | cons y ys ih =>
      rw [List.pairwise_cons] at hl
      obtain ⟨hy, hys⟩ := hl
      simp only [insertSortedBy]
      by_cases h : le y x = true
      · rw [if_pos h, List.pairwise_cons]
        refine ⟨?_, ih hys⟩
        intro b hb
        have hb2 : b = x ∨ b ∈ ys := by
          simpa using (insertSortedBy_perm le x ys).mem_iff.mp hb
        rcases hb2 with rfl | hb2
        · exact h
        · exact hy b hb2
      · have hxy : le x y = true := (hTotal x y).resolve_right (by simpa using h)
        rw [if_neg h, List.pairwise_cons]
        refine ⟨?_, List.pairwise_cons.mpr ⟨hy, hys⟩⟩
        intro b hb
        rcases List.mem_cons.mp hb with rfl | hb2
        · exact hxy
        · exact hTrans x y b hxy (hy b hb2)

theorem stableSortBy_pairwise {α : Type} (le : α → α → Bool)
    (hTotal : ∀ a b, le a b = true ∨ le b a = true)
    (hTrans : ∀ a b c, le a b = true → le b c = true → le a c = true)
    (l : List α) :
    (stableSortBy le l).Pairwise (fun a b => le a b = true) := by
  suffices h : ∀ acc : List α, acc.Pairwise (fun a b => le a b = true) →
      (l.foldl (fun acc x => insertSortedBy le x acc) acc).Pairwise
        (fun a b => le a b = true) by
    exact h [] (by simp)
  induction l with
  | nil => intro acc hacc; simpa using hacc
  | cons y ys ih =>
      intro acc hacc
      simp only [List.foldl_cons]
      exact ih _ (insertSortedBy_pairwise le hTotal hTrans y acc hacc)

theorem insertSortedBy_all_le {α : Type} (le : α → α → Bool) (x : α) (l : List α)
    (h : ∀ y ∈ l, le y x = true) : insertSortedBy le x l = l ++ [x] := by
  induction l with
  | nil => simp [insertSortedBy]
  | cons y ys ih =>
      have hy : le y x = true := h y (by simp)
      simp only [insertSortedBy, hy, if_true, List.cons_append]
      rw [ih fun z hz => h z (by simp [hz])]

/-- A stable sort leaves an already-sorted list unchanged. -/
theorem stableSortBy_of_pairwise {α : Type} (le : α → α → Bool) (l : List α)
    (hl : l.Pairwise (fun a b => le a b = true)) : stableSortBy le l = l := by
  induction l using List.reverseRecOn with
  | nil => simp [stableSortBy]
  | append_singleton ys y ih =>
      rw [List.pairwise_append] at hl
      obtain ⟨h1, _, h3⟩ := hl
      have : stableSortBy le (ys ++ [y]) = insertSortedBy le y (stableSortBy le ys) := by
        simp [stableSortBy]
      rw [this, ih h1, insertSortedBy_all_le]
      intro z hz
      exact h3 z hz y (by simp)

theorem bumpTBucket_bdate (t : Txn) (b : TBucket) :
    (bumpTBucket t b).bdate = b.bdate := by
  cases h : t.ttype <;> simp [bumpTBucket, h]

theorem find?_updateTBucket (t : Txn) (key : ℤ) (l : List TBucket) :
    (updateTBucket key (bumpTBucket t) l).find? (fun b => b.bdate == key) =
      (l.find? (fun b => b.bdate == key)).map (bumpTBucket t) := by
  induction l with
  | nil => simp [updateTBucket]
  | cons b bs ih =>
      by_cases h : b.bdate = key
      · rw [updateTBucket, if_pos h]
        rw [List.find?_cons_of_pos _ (by simp [bumpTBucket_bdate, h]),
          List.find?_cons_of_pos _ (by simp [h])]
        simp
      · rw [updateTBucket, if_neg h]
        rw [List.find?_cons_of_neg _ (by simp [h]),
          List.find?_cons_of_neg _ (by simp [h])]
        exact ih

theorem find?_updateTBucket_ne (t : Txn) (key key2 : ℤ) (hne : key2 ≠ key)
    (l : List TBucket) :
    (updateTBucket key2 (bumpTBucket t) l).find? (fun b => b.bdate == key) =
      l.find? (fun b => b.bdate == key) := by
  induction l with
  | nil => simp [updateTBucket]
  | cons b bs ih =>
      by_cases h : b.bdate = key2
      · rw [updateTBucket, if_pos h]
        have h2 : ¬ (b.bdate = key) := by rw [h]; exact hne
        rw [List.find?_cons_of_neg _ (by simp [bumpTBucket_bdate, h, hne]),
          List.find?_cons_of_neg _ (by simp [h2])]
      · rw [updateTBucket, if_neg h]
        cases h3 : (b.bdate == key) with
        | true =>
            rw [List.find?_cons_of_pos _ (by simp [h3]),
              List.find?_cons_of_pos _ (by simp [h3])]
        | false =>
            rw [List.find?_cons_of_neg _ (by simp_all),
              List.find?_cons_of_neg _ (by simp_all)]
            exact ih

theorem find?_append_of_none {α : Type} (p : α → Bool) (l1 l2 : List α)
    (h : l1.find? p = none) : (l1 ++ l2).find? p = l2.find? p := by
  induction l1 with
  | nil => simp
  | cons a l ih =>
      rw [List.find?_cons] at h
      cases hp : p a with
      | true => rw [hp] at h; exact absurd h (by simp)
      | false =>
          rw [hp] at h
          rw [List.cons_append, List.find?_cons_of_neg _ (by simp [hp])]
          exact ih h

theorem any_eq_isSome_find? {α : Type} (p : α → Bool) (l : List α) :
    l.any p = (l.find? p).isSome := by
  induction l with
  | nil => simp
  | cons a l ih =>
      cases hp : p a with
      | true => simp [List.any_cons, hp, List.find?_cons_of_pos _ hp]
      | false =>
          have hneg : ¬ p a = true := by simp [hp]
          rw [List.any_cons, hp, List.find?_cons_of_neg _ hneg, Bool.false_or]
          exact ih

theorem find?_addTimelineTxn_ne (g : Grouping) (t : Txn) (key : ℤ)
    (h : periodKey g t.tdate ≠ key) (acc : List TBucket) :
    (addTimelineTxn g acc t).find? (fun b => b.bdate == key) =
      acc.find? (fun b => b.bdate == key) := by
  rw [addTimelineTxn]
  by_cases hc : acc.any (fun b => b.bdate == periodKey g t.tdate) = true
  · rw [if_pos hc]
    exact find?_updateTBucket_ne t key _ h acc
  · rw [if_neg hc]
    cases hf : acc.find? (fun b => b.bdate == key) with
    | some b => rw [List.find?_append]; simp [hf]
    | none =>
        rw [find?_append_of_none _ _ _ hf]
        rw [List.find?_cons_of_neg _
          (by simp [bumpTBucket_bdate, emptyTBucket, h]), List.find?_nil]

theorem find?_addTimelineTxn_eq (g : Grouping) (t : Txn) (key : ℤ)
    (h : periodKey g t.tdate = key) (acc : List TBucket) :
    (addTimelineTxn g acc t).find? (fun b => b.bdate == key) =
      some (bumpTBucket t
        (((acc.find? (fun b => b.bdate == key))).getD (emptyTBucket key))) := by
  rw [addTimelineTxn, h]
  rw [show (acc.any fun b => b.bdate == key) = (acc.find? (fun b => b.bdate == key)).isSome
    from any_eq_isSome_find? _ acc]
  cases hf : acc.find? (fun b => b.bdate == key) with
  | some b =>
      simp only [hf, Option.isSome_some, if_true, Option.getD_some]
      rw [find?_updateTBucket, hf]
      simp
  | none =>
      simp only [hf, Option.isSome_none, Bool.false_eq_true, if_false, Option.getD_none]
      rw [find?_append_of_none _ _ _ hf]
      rw [List.find?_cons_of_pos _ (by simp [bumpTBucket_bdate, emptyTBucket])]

theorem find?_foldl_addTimelineTxn_some (g : Grouping) (key : ℤ) (txns : List Txn) :
    ∀ (acc : List TBucket) (b : TBucket),
      acc.find? (fun b => b.bdate == key) = some b →
      (txns.foldl (addTimelineTxn g) acc).find? (fun b => b.bdate == key) =
        some (foldTBucket b (periodTxns g key txns)) := by
  induction txns with
  | nil => intro acc b hb; simpa [periodTxns, foldTBucket] using hb
  | cons t ts ih =>
      intro acc b hb
      rw [List.foldl_cons]
      by_cases h : periodKey g t.tdate = key
      · have := find?_addTimelineTxn_eq g t key h acc
        rw [hb] at this
        simp only [Option.getD_some] at this
        rw [ih _ _ this]
        simp [periodTxns, foldTBucket, h]
      · have := find?_addTimelineTxn_ne g t key h acc
        rw [hb] at this
        rw [ih _ _ this]
        simp [periodTxns, foldTBucket, h]

theorem find?_foldl_addTimelineTxn_none (g : Grouping) (key : ℤ) (txns : List Txn) :
    ∀ acc : List TBucket,
      acc.find? (fun b => b.bdate == key) = none →
      (txns.foldl (addTimelineTxn g) acc).find? (fun b => b.bdate == key) =
        (if periodTxns g key txns = [] then none
         else some (foldTBucket (emptyTBucket key) (periodTxns g key txns))) := by
  induction txns with
  | nil => intro acc hacc; simpa [periodTxns] using hacc
  | cons t ts ih =>
      intro acc hacc
      rw [List.foldl_cons]
      by_cases h : periodKey g t.tdate = key
      · have := find?_addTimelineTxn_eq g t key h acc
        rw [hacc] at this
        simp only [Option.getD_none] at this
        rw [find?_foldl_addTimelineTxn_some g key ts _ _ this]
        simp [periodTxns, foldTBucket, h]
      · have := find?_addTimelineTxn_ne g t key h acc
        rw [hacc] at this
        rw [ih _ this]
        simp [periodTxns, h]

theorem foldTBucket_fields (l : List Txn) : ∀ b : TBucket,
    (foldTBucket b l).total_income = b.total_income + incomeSum l ∧
    (foldTBucket b l).total_expenses = b.total_expenses + expenseSum l ∧
    (foldTBucket b l).txnCount = b.txnCount + l.length := by
  induction l with
  | nil => intro b; simp [foldTBucket, incomeSum, expenseSum]
  | cons t ts ih =>
      intro b
      have hstep : foldTBucket b (t :: ts) = foldTBucket (bumpTBucket t b) ts := by
        simp [foldTBucket]
      obtain ⟨h1, h2, h3⟩ := ih (bumpTBucket t b)
      rw [hstep]
      refine ⟨?_, ?_, ?_⟩
      · rw [h1]; cases h : t.ttype
        · simp [bumpTBucket, h, incomeSum]; ring
        · simp [bumpTBucket, h, incomeSum]
      · rw [h2]; cases h : t.ttype
        · simp [bumpTBucket, h, expenseSum]
        · simp [bumpTBucket, h, expenseSum]; ring
      · rw [h3]; cases h : t.ttype <;> simp [bumpTBucket, h] <;> omega

theorem finishTBucket_pdate (b : TBucket) : (finishTBucket b).pdate = b.bdate := rfl

/-- Closed form of the four aggregate fields of `get_timeline_data` at one
period key: they are the filter-sums over the queried transactions of that
period (or absent when the period has none). -/
theorem bucketTotals_spec (f : TFilters) (table : List Txn) (key : ℤ) :
    bucketTotals (getTimelineData f table) key =
      (if periodTxns f.grouping key (applyTimelineQuery f table) = [] then none
       else some
         (incomeSum (periodTxns f.grouping key (applyTimelineQuery f table)),
          expenseSum (periodTxns f.grouping key (applyTimelineQuery f table)),
          incomeSum (periodTxns f.grouping key (applyTimelineQuery f table)) -
            expenseSum (periodTxns f.grouping key (applyTimelineQuery f table)),
          (periodTxns f.grouping key (applyTimelineQuery f table)).length)) := by
  rw [bucketTotals, getTimelineData]
  rw [List.find?_map]
  have hcomp : ((fun b : TimelinePoint => b.pdate == key) ∘ finishTBucket) =
      (fun b : TBucket => b.bdate == key) := by
    funext b; simp [finishTBucket_pdate, Function.comp]
  rw [hcomp]
  rw [find?_foldl_addTimelineTxn_none f.grouping key _ [] (by simp)]
  by_cases h : periodTxns f.grouping key (applyTimelineQuery f table) = []
  · simp [h]
  · rw [if_neg h, if_neg h]
    obtain ⟨h1, h2, h3⟩ := foldTBucket_fields
      (periodTxns f.grouping key (applyTimelineQuery f table)) (emptyTBucket key)
    simp only [Option.map_some']
    rw [finishTBucket]
    simp only [emptyTBucket] at h1 h2 h3
    simp only [emptyTBucket]
    rw [h1, h2, h3]
    norm_num

theorem assocVal_cons_ne (c : String) (v : ℚ) (m : List (String × ℚ)) (cat2 : String)
    (h : c ≠ cat2) : assocVal ((c, v) :: m) cat2 = assocVal m cat2 := by
  rw [assocVal, assocVal]
  congr 1
  apply List.find?_cons_of_neg
  simp [h]

theorem assocVal_addToAssoc (cat cat2 : String) (amt : ℚ) (m : List (String × ℚ)) :
    assocVal (addToAssoc cat amt m) cat2 =
      if cat2 = cat then some ((assocVal m cat2).getD 0 + amt)
      else assocVal m cat2 := by
  induction m with
  | nil =>
      by_cases h : cat2 = cat
      · subst h; simp [addToAssoc, assocVal]
      · simp [addToAssoc, assocVal, h, Ne.symm h]
  | cons p rest ih =>
      obtain ⟨c, v⟩ := p
      by_cases hc : c = cat
      · subst hc
        by_cases h : cat2 = c
        · subst h; simp [addToAssoc, assocVal]
        · simp [addToAssoc, assocVal, h, Ne.symm h]
      · rw [addToAssoc, if_neg hc]
        by_cases h : cat2 = c
        · subst h; simp [assocVal, if_neg (by exact fun hh => hc hh.symm : ¬ cat = cat2)]
          rw [if_neg (by exact fun hh => hc hh : ¬ cat2 = cat)]
        · have hcc : c ≠ cat2 := fun hh => h hh.symm
          rw [assocVal_cons_ne c v _ _ hcc, assocVal_cons_ne c v _ _ hcc]
          exact ih

theorem bumpTrendBucket_bdate (t : Txn) (b : TrendBucket) :
    (bumpTrendBucket t b).bdate = b.bdate := rfl

theorem find?_updateTrendBucket (t : Txn) (key : ℤ) (l : List TrendBucket) :
    (updateTrendBucket key (bumpTrendBucket t) l).find? (fun b => b.bdate == key) =
      (l.find? (fun b => b.bdate == key)).map (bumpTrendBucket t) := by
  induction l with
  | nil => simp [updateTrendBucket]
  | cons b bs ih =>
      by_cases h : b.bdate = key
      · rw [updateTrendBucket, if_pos h]
        rw [List.find?_cons_of_pos _ (by simp [bumpTrendBucket_bdate, h]),
          List.find?_cons_of_pos _ (by simp [h])]
        simp
      · rw [updateTrendBucket, if_neg h]
        rw [List.find?_cons_of_neg _ (by simp [h]),
          List.find?_cons_of_neg _ (by simp [h])]
        exact ih

theorem find?_updateTrendBucket_ne (t : Txn) (key key2 : ℤ) (hne : key2 ≠ key)
    (l : List TrendBucket) :
    (updateTrendBucket key2 (bumpTrendBucket t) l).find? (fun b => b.bdate == key) =
      l.find? (fun b => b.bdate == key) := by
  induction l with
  | nil => simp [updateTrendBucket]
  | cons b bs ih =>
      by_cases h : b.bdate = key2
      · rw [updateTrendBucket, if_pos h]
        have h2 : ¬ (b.bdate = key) := by rw [h]; exact hne
        rw [List.find?_cons_of_neg _ (by simp [bumpTrendBucket_bdate, h, hne]),
          List.find?_cons_of_neg _ (by simp [h2])]
      · rw [updateTrendBucket, if_neg h]
        cases h3 : (b.bdate == key) with
        | true =>
            rw [List.find?_cons_of_pos _ (by simp [h3]),
              List.find?_cons_of_pos _ (by simp [h3])]
        | false =>
            rw [List.find?_cons_of_neg _ (by simp_all),
              List.find?_cons_of_neg _ (by simp_all)]
            exact ih

theorem find?_addTrendCore_ne (t : Txn) (key key2 : ℤ) (h : key2 ≠ key)
    (acc : List TrendBucket) :
    (addTrendCore key2 acc t).find? (fun b => b.bdate == key) =
      acc.find? (fun b => b.bdate == key) := by
  rw [addTrendCore]
  by_cases hc : acc.any (fun b => b.bdate == key2) = true
  · rw [if_pos hc]
    exact find?_updateTrendBucket_ne t key key2 h acc
  · rw [if_neg hc]
    cases hf : acc.find? (fun b => b.bdate == key) with
    | some b => rw [List.find?_append]; simp [hf]
    | none =>
        rw [find?_append_of_none _ _ _ hf]
        rw [List.find?_cons_of_neg _
          (by simp [bumpTrendBucket_bdate, emptyTrendBucket, h]), List.find?_nil]

theorem find?_addTrendCore_eq (t : Txn) (key : ℤ) (acc : List TrendBucket) :
    (addTrendCore key acc t).find? (fun b => b.bdate == key) =
      some (bumpTrendBucket t
        ((acc.find? (fun b => b.bdate == key)).getD (emptyTrendBucket key))) := by
  rw [addTrendCore]
  rw [show (acc.any fun b => b.bdate == key) =
      (acc.find? (fun b => b.bdate == key)).isSome from any_eq_isSome_find? _ acc]
  cases hf : acc.find? (fun b => b.bdate == key) with
  | some b =>
      simp only [hf, Option.isSome_some, if_true, Option.getD_some]
      rw [find?_updateTrendBucket, hf]
      simp
  | none =>
      simp only [hf, Option.isSome_none, Bool.false_eq_true, if_false, Option.getD_none]
      rw [find?_append_of_none _ _ _ hf]
      rw [List.find?_cons_of_pos _ (by simp [bumpTrendBucket_bdate, emptyTrendBucket])]

theorem find?_foldl_addTrendCore_some (g : Grouping) (key : ℤ) (txns : List Txn) :
    ∀ (acc : List TrendBucket) (b : TrendBucket),
      acc.find? (fun b => b.bdate == key) = some b →
      (txns.foldl (fun acc t => addTrendCore (periodKey g t.tdate) acc t) acc).find?
          (fun b => b.bdate == key) =
        some (foldTrendBucket b (periodTxns g key txns)) := by
  induction txns with
  | nil => intro acc b hb; simpa [periodTxns, foldTrendBucket] using hb
  | cons t ts ih =>
      intro acc b hb
      rw [List.foldl_cons]
      by_cases h : periodKey g t.tdate = key
      · rw [show addTrendCore (periodKey g t.tdate) acc t = addTrendCore key acc t by rw [h]]
        have := find?_addTrendCore_eq t key acc
        rw [hb] at this
        simp only [Option.getD_some] at this
        rw [ih _ _ this]
        simp [periodTxns, foldTrendBucket, h]
      · have := find?_addTrendCore_ne t key _ h acc
        rw [hb] at this
        rw [ih _ _ this]
        simp [periodTxns, foldTrendBucket, h]

theorem find?_foldl_addTrendCore_none (g : Grouping) (key : ℤ) (txns : List Txn) :
    ∀ acc : List TrendBucket,
      acc.find? (fun b => b.bdate == key) = none →
      (txns.foldl (fun acc t => addTrendCore (periodKey g t.tdate) acc t) acc).find?
          (fun b => b.bdate == key) =
        (if periodTxns g key txns = [] then none
         else some (foldTrendBucket (emptyTrendBucket key) (periodTxns g key txns))) := by
  induction txns with
  | nil => intro acc hacc; simpa [periodTxns] using hacc
  | cons t ts ih =>
      intro acc hacc
      rw [List.foldl_cons]
      by_cases h : periodKey g t.tdate = key
      · rw [show addTrendCore (periodKey g t.tdate) acc t = addTrendCore key acc t by rw [h]]
        have := find?_addTrendCore_eq t key acc
        rw [hacc] at this
        simp only [Option.getD_none] at this
        rw [find?_foldl_addTrendCore_some g key ts _ _ this]
        simp [periodTxns, foldTrendBucket, h]
      · have := find?_addTrendCore_ne t key _ h acc
        rw [hacc] at this
        rw [ih _ this]
        simp [periodTxns, h]

theorem foldTrendBucket_catVal (cat : String) (l : List Txn) : ∀ b : TrendBucket,
    assocVal (foldTrendBucket b l).category_amounts cat =
      if l.filter (fun t => t.category == cat) = [] then
        assocVal b.category_amounts cat
      else some ((assocVal b.category_amounts cat).getD 0 + catSum cat l) := by
  induction l with
  | nil => intro b; simp [foldTrendBucket]
  | cons t ts ih =>
      intro b
      have hstep : foldTrendBucket b (t :: ts) = foldTrendBucket (bumpTrendBucket t b) ts := by
        simp [foldTrendBucket]
      rw [hstep, ih]
      by_cases hc : t.category = cat
      · have hbv : assocVal (bumpTrendBucket t b).category_amounts cat =
            some ((assocVal b.category_amounts cat).getD 0 + t.amount) := by
          rw [bumpTrendBucket]
          simp only []
          rw [hc, assocVal_addToAssoc, if_pos rfl]
        by_cases he : ts.filter (fun x => x.category == cat) = []
        · rw [if_pos he, hbv]
          have : (t :: ts).filter (fun x => x.category == cat) = [t] := by
            simp [List.filter_cons, hc, he]
          rw [if_neg (by simp [this]), catSum, this]
          simp
        · rw [if_neg he, hbv]
          have hcons : (t :: ts).filter (fun x => x.category == cat) =
              t :: ts.filter (fun x => x.category == cat) := by
            simp [List.filter_cons, hc]
          rw [if_neg (by simp [hcons])]
          simp only [Option.getD_some]
          have hsum : catSum cat (t :: ts) = t.amount + catSum cat ts := by
            rw [catSum, catSum, hcons]
            simp
          rw [hsum]
          refine congrArg some ?_
          ring
      · have hbv : assocVal (bumpTrendBucket t b).category_amounts cat =
            assocVal b.category_amounts cat := by
          rw [bumpTrendBucket]
          simp only []
          rw [assocVal_addToAssoc, if_neg (by exact fun hh => hc hh.symm)]
        have hfilter : (t :: ts).filter (fun x => x.category == cat) =
            ts.filter (fun x => x.category == cat) := by
          simp [List.filter_cons, hc]
        rw [hbv, hfilter]
        rw [show catSum cat (t :: ts) = catSum cat ts by simp [catSum, hfilter]]

theorem foldl_addTrendTxn_none (g : Grouping) (l : List Txn) :
    l.foldl (addTrendTxn g) none = none := by
  induction l with
  | nil => rfl
  | cons t ts ih => simpa [addTrendTxn] using ih

theorem trendPeriodKey_of_ne_weekly (g : Grouping) (hg : g ≠ .weekly) (o : ℤ) :
    trendPeriodKey g o = some (periodKey g o) := by
  cases g with
  | daily => rfl
  | weekly => exact absurd rfl hg
  | monthly => rfl
  | yearly => rfl

theorem foldl_addTrendTxn_some (g : Grouping) (hg : g ≠ .weekly) (txns : List Txn) :
    ∀ acc : List TrendBucket,
      txns.foldl (addTrendTxn g) (some acc) =
        some (txns.foldl (fun acc t => addTrendCore (periodKey g t.tdate) acc t) acc) := by
  induction txns with
  | nil => intro acc; rfl
  | cons t ts ih =>
      intro acc
      rw [List.foldl_cons, List.foldl_cons]
      rw [show addTrendTxn g (some acc) t =
        some (addTrendCore (periodKey g t.tdate) acc t) by
          simp only [addTrendTxn, trendPeriodKey_of_ne_weekly g hg,
            Option.some_bind, Option.map_some']]
      exact ih _

/-- Under weekly grouping `get_expense_trends` never yields a category
total: with no matching rows the trends dict is empty, and with any row the
period-key computation raises. -/
theorem trendCategoryTotal_weekly (startD endD : ℤ) (table : List Txn)
    (key : ℤ) (cat : String) :
    trendCategoryTotal (getExpenseTrends .weekly startD endD table) key cat = none := by
  rw [getExpenseTrends]
  cases hq : stableSortBy (fun a b => a.tdate ≤ b.tdate)
      (table.filter fun t =>
        t.ttype == TxnType.expense && (startD ≤ t.tdate && t.tdate ≤ endD)) with
  | nil => rfl
  | cons t ts =>
      rw [List.foldl_cons]
      rw [show addTrendTxn .weekly (some []) t = none from rfl]
      rw [foldl_addTrendTxn_none]
      rfl

/-- Closed form of the per-period category totals of `get_expense_trends`
(non-weekly groupings): the total for `cat` in period `key` is the sum of
the matching queried rows, present exactly when there is at least one. -/
theorem trendCategoryTotal_spec (g : Grouping) (hg : g ≠ .weekly)
    (startD endD : ℤ) (table : List Txn) (key : ℤ) (cat : String) :
    trendCategoryTotal (getExpenseTrends g startD endD table) key cat =
      (let rel := periodTxns g key (stableSortBy (fun a b => a.tdate ≤ b.tdate)
        (table.filter fun t =>
          t.ttype == TxnType.expense && (startD ≤ t.tdate && t.tdate ≤ endD)))
       if rel.filter (fun t => t.category == cat) = [] then none
       else some (catSum cat rel)) := by
  rw [getExpenseTrends]
  rw [foldl_addTrendTxn_some g hg _ []]
  rw [trendCategoryTotal]
  rw [Option.some_bind]
  rw [find?_foldl_addTrendCore_none g key _ [] (by simp)]
  by_cases h : periodTxns g key (stableSortBy (fun a b => a.tdate ≤ b.tdate)
      (table.filter fun t =>
        t.ttype == TxnType.expense && (startD ≤ t.tdate && t.tdate ≤ endD))) = []
  · rw [if_pos h]
    have : (periodTxns g key (stableSortBy (fun a b => a.tdate ≤ b.tdate)
        (table.filter fun t =>
          t.ttype == TxnType.expense && (startD ≤ t.tdate && t.tdate ≤ endD)))).filter
            (fun t => t.category == cat) = [] := by
      rw [h]; rfl
    simp [this]
  · rw [if_neg h, Option.some_bind]
    rw [show ∀ b : TrendBucket, (b.category_amounts.find? (fun p => p.1 == cat)).map
        (fun p => p.2) = assocVal b.category_amounts cat from fun b => rfl]
    rw [foldTrendBucket_catVal]
    by_cases h2 : (periodTxns g key (stableSortBy (fun a b => a.tdate ≤ b.tdate)
        (table.filter fun t =>
          t.ttype == TxnType.expense && (startD ≤ t.tdate && t.tdate ≤ endD)))).filter
            (fun t => t.category == cat) = []
    · rw [if_pos h2]
      simp [h2, emptyTrendBucket, assocVal]
    · rw [if_neg h2]
      rw [if_neg h2]
      refine congrArg some ?_
      rw [show assocVal (emptyTrendBucket key).category_amounts cat = none from rfl]
      rw [Option.getD_none, zero_add]

/-- C9: re-ordering the input transaction list never changes the per-bucket
aggregate totals: for any permutation of the transaction table, every
period bucket of `get_timeline_data` carries the same `total_income`,
`total_expenses`, `net_amount` and `transaction_count`, and every per-bucket
category total of `get_expense_trends` is unchanged as well. -/
theorem claim_C9_order_independence (f : TFilters) (g : Grouping)
    (startD endD : ℤ) (t1 t2 : List Txn) (hperm : t1.Perm t2) :
    (∀ key : ℤ, bucketTotals (getTimelineData f t1) key =
      bucketTotals (getTimelineData f t2) key) ∧
    (∀ (key : ℤ) (cat : String),
      trendCategoryTotal (getExpenseTrends g startD endD t1) key cat =
        trendCategoryTotal (getExpenseTrends g startD endD t2) key cat) := by
  constructor
  · intro key
    rw [bucketTotals_spec, bucketTotals_spec]
    have hq : (applyTimelineQuery f t1).Perm (applyTimelineQuery f t2) := by
      refine (stableSortBy_perm _ _).trans ?_
      exact (hperm.filter _).trans (stableSortBy_perm _ _).symm
    have hrel : (periodTxns f.grouping key (applyTimelineQuery f t1)).Perm
        (periodTxns f.grouping key (applyTimelineQuery f t2)) := hq.filter _
    by_cases h : periodTxns f.grouping key (applyTimelineQuery f t1) = []
    · rw [if_pos h, if_pos (by rw [h] at hrel; exact hrel.symm.eq_nil)]
    · have h2 : ¬ periodTxns f.grouping key (applyTimelineQuery f t2) = [] := by
        intro hh
        rw [hh] at hrel
        exact h hrel.eq_nil
      rw [if_neg h, if_neg h2]
      have hinc : incomeSum (periodTxns f.grouping key (applyTimelineQuery f t1)) =
          incomeSum (periodTxns f.grouping key (applyTimelineQuery f t2)) :=
        ((hrel.filter _).map _).sum_eq
      have hexp : expenseSum (periodTxns f.grouping key (applyTimelineQuery f t1)) =
          expenseSum (periodTxns f.grouping key (applyTimelineQuery f t2)) :=
        ((hrel.filter _).map _).sum_eq
      rw [hinc, hexp, hrel.length_eq]
  · intro key cat
    by_cases hg : g = .weekly
    · subst hg
      rw [trendCategoryTotal_weekly, trendCategoryTotal_weekly]
    · rw [trendCategoryTotal_spec g hg, trendCategoryTotal_spec g hg]
      have hrel : (periodTxns g key (stableSortBy (fun a b => a.tdate ≤ b.tdate)
          (t1.filter fun t =>
            t.ttype == TxnType.expense && (startD ≤ t.tdate && t.tdate ≤ endD)))).Perm
          (periodTxns g key (stableSortBy (fun a b => a.tdate ≤ b.tdate)
            (t2.filter fun t =>
              t.ttype == TxnType.expense && (startD ≤ t.tdate && t.tdate ≤ endD)))) := by
        refine List.Perm.filter _ ?_
        refine (stableSortBy_perm _ _).trans ?_
        exact (hperm.filter _).trans (stableSortBy_perm _ _).symm
      have hrelc := hrel.filter (fun t => t.category == cat)
      by_cases h : (periodTxns g key (stableSortBy (fun a b => a.tdate ≤ b.tdate)
          (t1.filter fun t =>
            t.ttype == TxnType.expense && (startD ≤ t.tdate && t.tdate ≤ endD)))).filter
              (fun t => t.category == cat) = []
      · rw [h] at hrelc
        simp only []
        rw [if_pos h, if_pos hrelc.symm.eq_nil]
      · have h2 : ¬ (periodTxns g key (stableSortBy (fun a b => a.tdate ≤ b.tdate)
            (t2.filter fun t =>
              t.ttype == TxnType.expense && (startD ≤ t.tdate && t.tdate ≤ endD)))).filter
                (fun t => t.category == cat) = [] := by
          intro hh
          rw [hh] at hrelc
          exact h hrelc.eq_nil
        simp only []
        rw [if_neg h, if_neg h2]
        have : catSum cat (periodTxns g key (stableSortBy (fun a b => a.tdate ≤ b.tdate)
            (t1.filter fun t =>
              t.ttype == TxnType.expense && (startD ≤ t.tdate && t.tdate ≤ endD)))) =
            catSum cat (periodTxns g key (stableSortBy (fun a b => a.tdate ≤ b.tdate)
              (t2.filter fun t =>
                t.ttype == TxnType.expense && (startD ≤ t.tdate && t.tdate ≤ endD)))) :=
          (hrelc.map _).sum_eq
        rw [this]

theorem buildCFPoints_length (bal : ℚ) (l : List CFBucket) :
    (buildCFPoints bal l).length = l.length := by
  induction l generalizing bal with
  | nil => rfl
  | cons b bs ih => simp [buildCFPoints, ih]

theorem buildCFPoints_get_zero_opening (l : List CFBucket) (bal : ℚ)
    (h : 0 < (buildCFPoints bal l).length) :
    ((buildCFPoints bal l).get ⟨0, h⟩).opening_balance = bal := by
  cases l with
  | nil => simp [buildCFPoints] at h
  | cons b bs => simp [buildCFPoints]

theorem buildCFPoints_balancedChain (l : List CFBucket) :
    ∀ bal : ℚ, balancedChain (buildCFPoints bal l) := by
  induction l with
  | nil => intro bal; exact ⟨fun i => absurd i.isLt (by simp [buildCFPoints]), fun i h => absurd h (by simp [buildCFPoints])⟩
  | cons b bs ih =>
      intro bal
      obtain ⟨ih1, ih2⟩ := ih (bal + (b.total_income - b.total_expenses))
      constructor
      · intro i
        match i with
        | ⟨0, h⟩ => simp [buildCFPoints]
        | ⟨j + 1, h⟩ =>
            have h2 : j < (buildCFPoints (bal + (b.total_income - b.total_expenses)) bs).length := by
              simpa [buildCFPoints] using h
            exact ih1 ⟨j, h2⟩
      · intro i h
        match i with
        | 0 =>
            have h2 : 0 < (buildCFPoints (bal + (b.total_income - b.total_expenses)) bs).length := by
              simpa [buildCFPoints] using h
            have := buildCFPoints_get_zero_opening bs
              (bal + (b.total_income - b.total_expenses)) h2
            simpa [buildCFPoints] using this
        | j + 1 =>
            have h2 : j + 1 < (buildCFPoints (bal + (b.total_income - b.total_expenses)) bs).length := by
              simpa [buildCFPoints] using h
            exact ih2 j h2

/-- C1: every list of cash-flow points produced by `get_cash_flow_data` —
synthetic zero-activity periods included — satisfies
`closing_balance = opening_balance + net_change` pointwise, and adjacent
points satisfy `opening_balance[i+1] = closing_balance[i]`; the same holds
for the mock cash-flow path. -/
theorem claim_C1_cash_flow_chain :
    (∀ (g : Grouping) (startD endD : ℤ) (bal : ℚ) (table : List Txn)
      (pts : List CFPoint),
      getCashFlowData g startD endD bal table = some pts → balancedChain pts) ∧
    (∀ (g : Grouping) (startD endD : ℤ) (bal : ℚ) (txns : List Txn),
      balancedChain (mockCashFlowPoints g startD endD bal txns)) := by
  constructor
  · intro g startD endD bal table pts h
    rw [getCashFlowData] at h
    cases hgen : genPeriods g endD ((endD - startD).toNat + 1) startD [] with
    | none => rw [hgen] at h; exact absurd h (by simp)
    | some buckets =>
        rw [hgen] at h
        simp only [Option.some_inj] at h
        rw [show pts = buildCFPoints bal
          (stableSortBy (fun a b => a.bdate ≤ b.bdate)
            ((stableSortBy (fun a b => a.tdate ≤ b.tdate)
              (table.filter (fun t => startD ≤ t.tdate && t.tdate ≤ endD))).foldl
                (addCFTxn g) buckets)) from h.symm]
        exact buildCFPoints_balancedChain _ bal
  · intro g startD endD bal txns
    exact buildCFPoints_balancedChain _ bal

/-- Witness for C1 at a concrete input: a one-day range with no
transactions produces a single synthetic zero point. -/
theorem claim_C1_witness : balancedChain [⟨0, 0, 0, 0, 0, 0⟩] :=
  claim_C1_cash_flow_chain.1 .daily 0 0 0 [] [⟨0, 0, 0, 0, 0, 0⟩] (by
    norm_num [getCashFlowData, genPeriods, stepDate, periodKey, emptyCFBucket,
      stableSortBy, insertSortedBy, buildCFPoints])

theorem buildCFPoints_mem_pdate (l : List CFBucket) :
    ∀ (bal : ℚ) (p : CFPoint), p ∈ buildCFPoints bal l → ∃ b ∈ l, p.pdate = b.bdate := by
  induction l with
  | nil => intro bal p hp; simp [buildCFPoints] at hp
  | cons b bs ih =>
      intro bal p hp
      rw [buildCFPoints] at hp
      rcases List.mem_cons.mp hp with rfl | hp2
      · exact ⟨b, by simp⟩
      · obtain ⟨c, hc, he⟩ := ih _ p hp2
        exact ⟨c, by simp [hc], he⟩

theorem buildCFPoints_pairwise (l : List CFBucket)
    (hl : l.Pairwise (fun a b => decide (a.bdate ≤ b.bdate) = true)) :
    ∀ bal : ℚ, (buildCFPoints bal l).Pairwise
      (fun a b => decide (a.pdate ≤ b.pdate) = true) := by
  induction l with
  | nil => intro bal; simp [buildCFPoints]
  | cons b bs ih =>
      rw [List.pairwise_cons] at hl
      obtain ⟨hb, hbs⟩ := hl
      intro bal
      rw [buildCFPoints, List.pairwise_cons]
      constructor
      · intro p hp
        obtain ⟨c, hc, he⟩ := buildCFPoints_mem_pdate bs _ p hp
        have := hb c hc
        simp only [decide_eq_true_eq] at this ⊢
        rw [he]
        exact this
      · exact ih hbs _

theorem buildCFPoints_map_income (l : List CFBucket) : ∀ bal : ℚ,
    (buildCFPoints bal l).map (fun p => p.total_income) =
      l.map (fun b => b.total_income) := by
  induction l with
  | nil => intro bal; rfl
  | cons b bs ih => intro bal; simp [buildCFPoints, ih]

theorem buildCFPoints_map_expenses (l : List CFBucket) : ∀ bal : ℚ,
    (buildCFPoints bal l).map (fun p => p.total_expenses) =
      l.map (fun b => b.total_expenses) := by
  induction l with
  | nil => intro bal; rfl
  | cons b bs ih => intro bal; simp [buildCFPoints, ih]

theorem sum_map_sub {α : Type} (l : List α) (f g : α → ℚ) :
    (l.map (fun x => f x - g x)).sum = (l.map f).sum - (l.map g).sum := by
  induction l with
  | nil => simp
  | cons a as ih => simp [ih]; ring

theorem buildCFPoints_lastClosing (l : List CFBucket) : ∀ bal : ℚ,
    ((buildCFPoints bal l).getLast?).map (fun p => p.closing_balance) =
      if l.isEmpty then none
      else some (bal + (l.map (fun b => b.total_income - b.total_expenses)).sum) := by
  induction l with
  | nil => intro bal; rfl
  | cons b bs ih =>
      intro bal
      cases bs with
      | nil => simp [buildCFPoints]
      | cons c cs =>
          have hcons : ∀ bal2 : ℚ, buildCFPoints bal2 (c :: cs) =
              { pdate := c.bdate, opening_balance := bal2,
                total_income := c.total_income, total_expenses := c.total_expenses,
                closing_balance := bal2 + (c.total_income - c.total_expenses),
                net_change := c.total_income - c.total_expenses } ::
                buildCFPoints (bal2 + (c.total_income - c.total_expenses)) cs :=
            fun bal2 => rfl
          rw [show buildCFPoints bal (b :: c :: cs) =
            { pdate := b.bdate, opening_balance := bal,
              total_income := b.total_income, total_expenses := b.total_expenses,
              closing_balance := bal + (b.total_income - b.total_expenses),
              net_change := b.total_income - b.total_expenses } ::
              buildCFPoints (bal + (b.total_income - b.total_expenses)) (c :: cs)
            from rfl]
          rw [hcons, List.getLast?_cons_cons, ← hcons, ih]
          simp only [List.isEmpty_cons, List.map_cons, List.sum_cons]
          refine congrArg some ?_
          ring

/-- Shared assembly facts: the points list built from date-sorted buckets
is itself date-sorted (so the service's re-sort leaves it unchanged), and
its last closing balance is the starting balance plus total income minus
total expenses. -/
theorem assembleFacts (bal : ℚ) (bl : List CFBucket) :
    (stableSortBy (fun a b => a.pdate ≤ b.pdate)
      (buildCFPoints bal (stableSortBy (fun a b => a.bdate ≤ b.bdate) bl)) =
      buildCFPoints bal (stableSortBy (fun a b => a.bdate ≤ b.bdate) bl)) ∧
    ((((buildCFPoints bal (stableSortBy (fun a b => a.bdate ≤ b.bdate) bl)).getLast?).map
        (fun p => p.closing_balance)).getD bal =
      bal + (((buildCFPoints bal (stableSortBy (fun a b => a.bdate ≤ b.bdate) bl)).map
          (fun p => p.total_income)).sum -
        ((buildCFPoints bal (stableSortBy (fun a b => a.bdate ≤ b.bdate) bl)).map
          (fun p => p.total_expenses)).sum)) := by
  have hsorted : (stableSortBy (fun a b => a.bdate ≤ b.bdate) bl).Pairwise
      (fun a b => decide (a.bdate ≤ b.bdate) = true) := by
    refine stableSortBy_pairwise _ ?_ ?_ bl
    · intro a b
      rcases le_total a.bdate b.bdate with h | h
      · left; simpa using h
      · right; simpa using h
    · intro a b c h1 h2
      simp only [decide_eq_true_eq] at h1 h2 ⊢
      exact le_trans h1 h2
  constructor
  · exact stableSortBy_of_pairwise _ _ (buildCFPoints_pairwise _ hsorted bal)
  · rw [buildCFPoints_lastClosing]
    cases hbl : (stableSortBy (fun a b => a.bdate ≤ b.bdate) bl).isEmpty with
    | true =>
        have : stableSortBy (fun a b => a.bdate ≤ b.bdate) bl = [] := by
          simpa using hbl
        rw [this]
        simp [buildCFPoints]
    | false =>
        simp only [hbl, Bool.false_eq_true, if_false, Option.getD_some]
        rw [buildCFPoints_map_income, buildCFPoints_map_expenses, sum_map_sub]

/-- `assembleCashFlow` written as an explicit record. -/
theorem assembleCashFlow_eq (bal : ℚ) (data : List CFPoint) :
    assembleCashFlow bal data =
      ⟨stableSortBy (fun a b => a.pdate ≤ b.pdate) data, bal,
        (((stableSortBy (fun a b => a.pdate ≤ b.pdate) data).getLast?).map
          (fun p => p.closing_balance)).getD bal,
        (data.map (fun p => p.total_income)).sum,
        (data.map (fun p => p.total_expenses)).sum,
        (data.map (fun p => p.total_income)).sum -
          (data.map (fun p => p.total_expenses)).sum⟩ := by
  rw [assembleCashFlow]
  rcases hx : (stableSortBy (fun a b => a.pdate ≤ b.pdate) data).getLast? with _ | p
  · simp [hx]
  · simp [hx]

/-- `mockCashFlowResponse` written as an explicit record. -/
theorem mockCashFlowResponse_eq (g : Grouping) (startD endD : ℤ) (bal : ℚ)
    (txns : List Txn) :
    mockCashFlowResponse g startD endD bal txns =
      ⟨mockCashFlowPoints g startD endD bal txns, bal,
        (((mockCashFlowPoints g startD endD bal txns).getLast?).map
          (fun p => p.closing_balance)).getD bal,
        ((mockCashFlowPoints g startD endD bal txns).map (fun p => p.total_income)).sum,
        ((mockCashFlowPoints g startD endD bal txns).map (fun p => p.total_expenses)).sum,
        ((mockCashFlowPoints g startD endD bal txns).map (fun p => p.total_income)).sum -
          ((mockCashFlowPoints g startD endD bal txns).map
            (fun p => p.total_expenses)).sum⟩ := by
  rw [mockCashFlowResponse]
  rcases hx : (mockCashFlowPoints g startD endD bal txns).getLast? with _ | p
  · simp [hx]
  · simp [hx]

/-- C10: every assembled cash-flow response satisfies
`net_cash_flow = total_income - total_expenses` and
`ending_balance = starting_balance + net_cash_flow`, and with no points the
ending balance equals the starting balance; likewise on the mock path. -/
theorem claim_C10_cash_flow_response :
    (∀ (g : Grouping) (startD endD : ℤ) (bal : ℚ) (table : List Txn)
      (r : CFResponse), getCashFlow g startD endD bal table = some r →
        r.net_cash_flow = r.total_income - r.total_expenses ∧
        r.ending_balance = r.starting_balance + r.net_cash_flow ∧
        (r.points = [] → r.ending_balance = r.starting_balance)) ∧
    (∀ (g : Grouping) (startD endD : ℤ) (bal : ℚ) (txns : List Txn),
      (mockCashFlowResponse g startD endD bal txns).net_cash_flow =
        (mockCashFlowResponse g startD endD bal txns).total_income -
          (mockCashFlowResponse g startD endD bal txns).total_expenses ∧
      (mockCashFlowResponse g startD endD bal txns).ending_balance =
        (mockCashFlowResponse g startD endD bal txns).starting_balance +
          (mockCashFlowResponse g startD endD bal txns).net_cash_flow ∧
      ((mockCashFlowResponse g startD endD bal txns).points = [] →
        (mockCashFlowResponse g startD endD bal txns).ending_balance =
          (mockCashFlowResponse g startD endD bal txns).starting_balance)) := by
  constructor
  · intro g startD endD bal table r h
    rw [getCashFlow, getCashFlowData] at h
    cases hgen : genPeriods g endD ((endD - startD).toNat + 1) startD [] with
    | none => rw [hgen] at h; exact absurd h (by simp)
    | some buckets =>
        rw [hgen] at h
        simp only [Option.map_some', Option.some_inj] at h
        obtain ⟨hfix, hlast⟩ := assembleFacts bal
          ((stableSortBy (fun a b => a.tdate ≤ b.tdate)
            (table.filter (fun t => startD ≤ t.tdate && t.tdate ≤ endD))).foldl
              (addCFTxn g) buckets)
        rw [← h, assembleCashFlow_eq]
        simp only []
        rw [hfix]
        refine ⟨trivial, hlast, ?_⟩
        intro hempty
        rw [hempty]
        rfl
  · intro g startD endD bal txns
    obtain ⟨hfix, hlast⟩ := assembleFacts bal
      ((groupByPeriod g (txns.filter (fun t => startD ≤ t.tdate && t.tdate ≤ endD))).map
        (fun p => mockCFBucket p.1 p.2))
    rw [mockCashFlowResponse_eq]
    simp only []
    rw [show mockCashFlowPoints g startD endD bal txns = buildCFPoints bal
      (stableSortBy (fun a b => a.bdate ≤ b.bdate)
        ((groupByPeriod g (txns.filter (fun t => startD ≤ t.tdate && t.tdate ≤ endD))).map
          (fun p => mockCFBucket p.1 p.2))) from rfl]
    refine ⟨trivial, hlast, ?_⟩
    intro hempty
    rw [hempty]
    rfl

/-- Witness for C10 at the same concrete one-day empty range. -/
theorem claim_C10_witness :
    (assembleCashFlow 0 [⟨0, 0, 0, 0, 0, 0⟩]).ending_balance =
      (assembleCashFlow 0 [⟨0, 0, 0, 0, 0, 0⟩]).starting_balance +
        (assembleCashFlow 0 [⟨0, 0, 0, 0, 0, 0⟩]).net_cash_flow :=
  ((claim_C10_cash_flow_response.1 .daily 0 0 0 [] _ (by
    norm_num [getCashFlow, getCashFlowData, genPeriods, stepDate, periodKey,
      emptyCFBucket, stableSortBy, insertSortedBy, buildCFPoints]))).2.1

/-- C3: for every date, the weekly bucket key is the Monday of that date's
week — it has weekday 0, is not after the date, and is less than seven days
before it; in particular 2024-01-17 (a Wednesday) maps to 2024-01-15. -/
theorem claim_C3_weekly_bucket_monday :
    (∀ o : ℤ, pyWeekday (periodKey .weekly o) = 0 ∧
      periodKey .weekly o ≤ o ∧ o - periodKey .weekly o < 7) ∧
    periodKey .weekly (civilToOrd 2024 1 17) = civilToOrd 2024 1 15 := by
  constructor
  · intro o
    simp only [periodKey, pyWeekday]
    have h0 : 0 ≤ (o - 1).emod 7 := Int.emod_nonneg _ (by norm_num)
    have h1 : (o - 1).emod 7 < 7 := Int.emod_lt_of_pos _ (by norm_num)
    have h2 : 7 * ((o - 1).ediv 7) + (o - 1).emod 7 = o - 1 := Int.ediv_add_emod _ _
    refine ⟨?_, by omega, by omega⟩
    rw [show o - (o - 1).emod 7 - 1 = 7 * ((o - 1).ediv 7) by omega]
    exact Int.mul_emod_right _ _
  · decide

/-- C2 counterexample: aggregating the spec's three transactions — stored
under the signed convention the claim stipulates — through
`get_timeline_data` with Monthly grouping yields one bucket with
`total_expenses = -50` and `net_amount = 1050`, not the claimed `50` and
`950` (the repository sums the signed amounts directly). -/
theorem claim_C2_counterexample :
    (getTimelineData monthlyFilters [txFood30, txSalary1000, txFood20]).map
      (fun b => (b.pdate, b.total_income, b.total_expenses, b.net_amount,
        b.transaction_count)) =
      [(civilToOrd 2024 1 1, 1000, -50, 1050, 3)] ∧
    ((-50 : ℚ) ≠ 50 ∧ (1050 : ℚ) ≠ 950) := by
  constructor
  · norm_num [getTimelineData, applyTimelineQuery, stableSortBy, insertSortedBy,
      passesFilters, addTimelineTxn, updateTBucket, bumpTBucket, emptyTBucket,
      finishTBucket, periodKey, ordToCivil, civilToOrd, pyWeekday, monthlyFilters,
      txFood30, txSalary1000, txFood20]
  · norm_num

/-- C2 amended: the mock timeline path, which presents expense magnitudes
via `abs`, produces the claimed single January bucket with
`total_income = 1000`, `total_expenses = 50`, `net_amount = 950` and three
transactions; the per-bucket category aggregation (`get_expense_trends`)
over the same signed data records `food ↦ -50`. -/
theorem claim_C2_monthly_scenario :
    (mockTimelinePoints .monthly (civilToOrd 2024 1 1) (civilToOrd 2024 1 31)
      [txFood30, txSalary1000, txFood20]).map
      (fun b => (b.pdate, b.total_income, b.total_expenses, b.net_amount,
        b.transaction_count)) =
      [(civilToOrd 2024 1 1, 1000, 50, 950, 3)] ∧
    trendCategoryTotal (getExpenseTrends .monthly (civilToOrd 2024 1 1)
      (civilToOrd 2024 1 31) [txFood30, txSalary1000, txFood20])
      (civilToOrd 2024 1 1) "food" = some (-50) := by
  have e1 : (TxnType.expense == TxnType.income) = false := rfl
  have e2 : (TxnType.income == TxnType.expense) = false := rfl
  have e3 : (TxnType.income == TxnType.income) = true := rfl
  have e4 : (TxnType.expense == TxnType.expense) = true := rfl
  constructor
  · norm_num [mockTimelinePoints, groupByPeriod, addToGroups, mockTimelinePoint,
      stableSortBy, insertSortedBy, periodKey, ordToCivil, civilToOrd, pyWeekday,
      txFood30, txSalary1000, txFood20, List.filter, e1, e2, e3, e4]
  · norm_num [getExpenseTrends, trendCategoryTotal, addTrendTxn, trendPeriodKey,
      addTrendCore, updateTrendBucket, bumpTrendBucket, emptyTrendBucket,
      addToAssoc, stableSortBy, insertSortedBy, periodKey, ordToCivil, civilToOrd,
      txFood30, txSalary1000, txFood20, List.filter, e1, e2, e3, e4]

/-- C4 counterexample: one daily bucket of 30 in a 30-day window.  The code
reports `daily_avg = 30` (it divides by the number of buckets, not by
`window_days`, which would give 1) and classifies the trend `increasing`
(a single bucket is compared against a zero first-half mean), not the
claimed `Stable`. -/
theorem claim_C4_counterexample :
    (getSpendingVelocity [30] 30).daily_avg ≠ 30 / 30 ∧
    (getSpendingVelocity [30] 30).velocity_trend ≠ "stable" := by
  constructor
  · norm_num [getSpendingVelocity]
  · norm_num [getSpendingVelocity]
    decide

/-- C4 amended: with no buckets the result is zeros and `stable` (with
`days_analyzed` echoing the window); otherwise `daily_average` is
`total_spent` divided by the NUMBER OF BUCKETS (the `window_days` argument
only sets the fetch range), the halves split at `len // 2` leaving the
extra bucket of an odd count in the SECOND half, the trend compares the
second half's mean against 1.1 resp. 0.9 times the first half's, and a
single bucket with positive spend classifies `increasing`. -/
theorem claim_C4_spending_velocity (points : List ℚ) (days : ℕ) :
    (points = [] → getSpendingVelocity points days = ⟨0, "stable", days, 0⟩) ∧
    (points ≠ [] →
      (getSpendingVelocity points days).daily_avg * (points.length : ℚ) = points.sum ∧
      (getSpendingVelocity points days).total_spent = points.sum ∧
      (getSpendingVelocity points days).days_analyzed = points.length ∧
      (points.take (points.length / 2)).length = points.length / 2 ∧
      (points.drop (points.length / 2)).length = points.length - points.length / 2 ∧
      (points.length % 2 = 1 →
        (points.drop (points.length / 2)).length = points.length / 2 + 1) ∧
      (getSpendingVelocity points days).velocity_trend =
        (if (points.drop (points.length / 2)).sum /
              ((points.length - points.length / 2 : ℕ) : ℚ) >
            (if 0 < points.length / 2 then
              (points.take (points.length / 2)).sum / ((points.length / 2 : ℕ) : ℚ)
             else 0) * (11/10 : ℚ) then "increasing"
         else if (points.drop (points.length / 2)).sum /
              ((points.length - points.length / 2 : ℕ) : ℚ) <
            (if 0 < points.length / 2 then
              (points.take (points.length / 2)).sum / ((points.length / 2 : ℕ) : ℚ)
             else 0) * (9/10 : ℚ) then "decreasing"
         else "stable")) ∧
    (∀ x : ℚ, 0 < x → (getSpendingVelocity [x] days).velocity_trend = "increasing") := by
  refine ⟨?_, ?_, ?_⟩
  · intro h
    subst h
    rfl
  · intro h
    have hne : points.isEmpty = false := by
      cases points with
      | nil => exact absurd rfl h
      | cons a as => rfl
    have hlen : points.length ≠ 0 := by
      cases points with
      | nil => exact absurd rfl h
      | cons a as => simp
    have hcast : ((points.length : ℕ) : ℚ) ≠ 0 := Nat.cast_ne_zero.mpr hlen
    have hsecond : 0 < points.length - points.length / 2 := by omega
    rw [getSpendingVelocity, if_neg (by simp [hne])]
    refine ⟨?_, rfl, rfl, ?_, ?_, ?_, ?_⟩
    · show points.sum / (points.length : ℚ) * (points.length : ℚ) = points.sum
      field_simp
    · simp [List.length_take]
      omega
    · simp [List.length_drop]
    · intro hodd
      simp [List.length_drop]
      omega
    · show (if _ > _ then "increasing" else _) = _
      rw [if_pos hsecond]
  · intro x hx
    rw [getSpendingVelocity]
    simp only [List.isEmpty_cons, Bool.false_eq_true, if_false]
    have : (0 : ℚ) * (11/10 : ℚ) = 0 := by norm_num
    norm_num
    intro hcon
    exact absurd hx (by simpa using hcon)

/-- Witness for C4's amended statement at the bucket list `[2, 4]`. -/
theorem claim_C4_witness :
    ([2, 4] : List ℚ) ≠ [] ∧
    (getSpendingVelocity [2, 4] 5).daily_avg * ((([2, 4] : List ℚ).length : ℕ) : ℚ) =
      ([2, 4] : List ℚ).sum :=
  ⟨by simp, ((claim_C4_spending_velocity [2, 4] 5).2.1 (by simp)).1⟩

/-- C5 counterexample: with the category map holding `transport` before
`food` (same contents as `{food: 100, transport: 100}`), the ranking keeps
`transport` first — the sort is stable on `total_amount` only, so tied
categories follow map insertion order, not name order, and the ranking is
not a function of the map's contents alone. -/
theorem claim_C5_counterexample :
    ((categoryBreakdown (expenseSummaryData
        [⟨1, 100, "transport", .expense, 0⟩, ⟨2, 100, "food", .expense, 0⟩])).map
      (fun c => c.category)) = ["transport", "food"] ∧
    (["transport", "food"] : List String) ≠ ["food", "transport"] := by
  constructor
  · have hs : ¬ ("transport" = "food") := by decide
    norm_num [categoryBreakdown, expenseSummaryData, addSummaryTxn, addCatStat,
      mkCatSummary, stableSortBy, insertSortedBy, hs]
  · decide

/-- C5 amended: the category breakdown is sorted descending by
`total_amount` and is a permutation of the per-category summaries, with
ties left in the map's insertion order (Python's stable sort); for the map
`{food: 100, transport: 100}` inserted `food` first, the output is `food`,
`transport`, each with `percentage_of_total = 50`. -/
theorem claim_C5_category_ranking :
    (∀ s : ExpSummaryData,
      (categoryBreakdown s).Pairwise (fun a b => b.total_amount ≤ a.total_amount) ∧
      (categoryBreakdown s).Perm (s.cats.map (mkCatSummary s.total_expenses))) ∧
    ((categoryBreakdown (expenseSummaryData
        [⟨1, 100, "food", .expense, 0⟩, ⟨2, 100, "transport", .expense, 0⟩])).map
      (fun c => (c.category, c.percentage_of_total))) =
      [("food", 50), ("transport", 50)] := by
  constructor
  · intro s
    constructor
    · have h := stableSortBy_pairwise
        (fun a b : CatSummary => b.total_amount ≤ a.total_amount)
        (fun a b => by
          rcases le_total b.total_amount a.total_amount with h | h
          · left; simpa using h
          · right; simpa using h)
        (fun a b c h1 h2 => by
          simp only [decide_eq_true_eq] at h1 h2 ⊢
          exact le_trans h2 h1)
        (s.cats.map (mkCatSummary s.total_expenses))
      exact h.imp (fun hab => by simpa using hab)
    · exact stableSortBy_perm _ _
  · have hs : ¬ ("food" = "transport") := by decide
    norm_num [categoryBreakdown, expenseSummaryData, addSummaryTxn, addCatStat,
      mkCatSummary, stableSortBy, insertSortedBy, hs]

/-! ### Percentage lemmas for C6 -/

theorem addCatStat_total_sum (cat : String) (amt : ℚ) (l : List CatStat) :
    ((addCatStat cat amt l).map (fun c => c.total)).sum =
      (l.map (fun c => c.total)).sum + amt := by
  induction l with
  | nil => simp [addCatStat]
  | cons c rest ih =>
      by_cases h : c.cat = cat
      · rw [addCatStat, if_pos h]
        simp only [List.map_cons, List.sum_cons]
        ring
      · rw [addCatStat, if_neg h]
        simp only [List.map_cons, List.sum_cons, ih]
        ring

theorem expenseSummary_cats_sum (txns : List Txn) :
    (((expenseSummaryData txns).cats).map (fun c => c.total)).sum =
      (expenseSummaryData txns).total_expenses := by
  suffices h : ∀ s : ExpSummaryData,
      ((s.cats).map (fun c => c.total)).sum = s.total_expenses →
      (((txns.foldl addSummaryTxn s).cats).map (fun c => c.total)).sum =
        (txns.foldl addSummaryTxn s).total_expenses by
    simpa [expenseSummaryData] using h ⟨0, 0, [], 0⟩ (by simp)
  induction txns with
  | nil => intro s hs; simpa using hs
  | cons t ts ih =>
      intro s hs
      rw [List.foldl_cons]
      refine ih _ ?_
      cases ht : t.ttype with
      | income => simpa [addSummaryTxn, ht] using hs
      | expense =>
          simp only [addSummaryTxn, ht, addCatStat_total_sum, hs]

theorem sum_pct_formula (l : List CatStat) (T : ℚ) :
    (l.map (fun c => c.total / T * 100)).sum =
      (l.map (fun c => c.total)).sum / T * 100 := by
  induction l with
  | nil => simp
  | cons c rest ih =>
      simp only [List.map_cons, List.sum_cons, ih]
      ring

/-- C6 amended: the percentage is `total/total_expenses*100` only when
`total_expenses` is strictly POSITIVE (the code's guard is `> 0`, not
`≠ 0`); in that case the percentages of the breakdown sum to exactly 100 in
exact arithmetic, and whenever `total_expenses ≤ 0` — including the
negative totals produced by the signed storage convention — every
percentage is 0. -/
theorem claim_C6_percentages (txns : List Txn) :
    (∀ c ∈ categoryBreakdown (expenseSummaryData txns),
      c.percentage_of_total =
        (if (expenseSummaryData txns).total_expenses > 0 then
          c.total_amount / (expenseSummaryData txns).total_expenses * 100 else 0)) ∧
    ((expenseSummaryData txns).total_expenses > 0 →
      ((categoryBreakdown (expenseSummaryData txns)).map
        (fun c => c.percentage_of_total)).sum = 100) ∧
    (¬ (expenseSummaryData txns).total_expenses > 0 →
      ∀ c ∈ categoryBreakdown (expenseSummaryData txns),
        c.percentage_of_total = 0) := by
  refine ⟨?_, ?_, ?_⟩
  · intro c hc
    have hc2 : c ∈ ((expenseSummaryData txns).cats).map
        (mkCatSummary (expenseSummaryData txns).total_expenses) :=
      (stableSortBy_perm _ _).mem_iff.mp hc
    obtain ⟨c0, hc0, rfl⟩ := List.mem_map.mp hc2
    rfl
  · intro hT
    have hperm := (stableSortBy_perm
      (fun a b : CatSummary => b.total_amount ≤ a.total_amount)
      (((expenseSummaryData txns).cats).map
        (mkCatSummary (expenseSummaryData txns).total_expenses))).map
        (fun c => c.percentage_of_total)
    rw [categoryBreakdown, hperm.sum_eq, List.map_map]
    have hmap : (((expenseSummaryData txns).cats).map
        ((fun c => c.percentage_of_total) ∘
          mkCatSummary (expenseSummaryData txns).total_expenses)) =
        ((expenseSummaryData txns).cats).map
          (fun c0 => c0.total / (expenseSummaryData txns).total_expenses * 100) := by
      refine List.map_congr_left ?_
      intro c0 hc0
      simp [mkCatSummary, Function.comp, if_pos hT]
    rw [hmap, sum_pct_formula, expenseSummary_cats_sum,
      div_self (ne_of_gt hT)]
    norm_num
  · intro hT c hc
    have hc2 : c ∈ ((expenseSummaryData txns).cats).map
        (mkCatSummary (expenseSummaryData txns).total_expenses) :=
      (stableSortBy_perm _ _).mem_iff.mp hc
    obtain ⟨c0, hc0, rfl⟩ := List.mem_map.mp hc2
    simp [mkCatSummary, if_neg hT]

/-- C6 counterexample: the single signed transaction (−30, food) has a
nonzero total but the code reports a zero percentage (sum 0, not the
claimed 100), because its guard requires a strictly positive total. -/
theorem claim_C6_counterexample :
    (expenseSummaryData [txFood30]).total_expenses ≠ 0 ∧
    ((categoryBreakdown (expenseSummaryData [txFood30])).map
      (fun c => c.percentage_of_total)).sum ≠ 100 := by
  constructor
  · norm_num [expenseSummaryData, addSummaryTxn, addCatStat, txFood30]
  · norm_num [categoryBreakdown, expenseSummaryData, addSummaryTxn, addCatStat,
      mkCatSummary, stableSortBy, insertSortedBy, txFood30]

/-- Witness for C6's amended statement on two positive-magnitude expenses:
the total 50 is positive and the percentages sum to 100. -/
theorem claim_C6_witness :
    (expenseSummaryData [⟨1, 30, "food", .expense, 0⟩,
      ⟨2, 20, "transport", .expense, 0⟩]).total_expenses > 0 ∧
    ((categoryBreakdown (expenseSummaryData [⟨1, 30, "food", .expense, 0⟩,
      ⟨2, 20, "transport", .expense, 0⟩])).map
      (fun c => c.percentage_of_total)).sum = 100 :=
  ⟨by
    have hs : ¬ ("food" = "transport") := by decide
    norm_num [expenseSummaryData, addSummaryTxn, addCatStat, hs],
   (claim_C6_percentages [⟨1, 30, "food", .expense, 0⟩,
      ⟨2, 20, "transport", .expense, 0⟩]).2.1
     (by
      have hs : ¬ ("food" = "transport") := by decide
      norm_num [expenseSummaryData, addSummaryTxn, addCatStat, hs])⟩

/-! ### Anomaly-loop lemmas for C7 and C8 -/

theorem buildAnomalies_isSome_of_ne (avg variance : ℚ) (h : avg ≠ 0) :
    ∀ l : List Txn, (buildAnomalies avg variance l).isSome = true := by
  intro l
  induction l with
  | nil => rfl
  | cons t ts ih =>
      rw [buildAnomalies]
      by_cases hf : exceedsThreshold t.amount avg variance = true
      · rw [if_pos hf, if_neg h]
        cases hb : buildAnomalies avg variance ts with
        | none => rw [hb] at ih; exact absurd ih (by simp)
        | some rest => simp
      · rw [if_neg hf]
        exact ih

theorem buildAnomalies_no_flags (avg variance : ℚ) :
    ∀ l : List Txn, (∀ t ∈ l, exceedsThreshold t.amount avg variance = false) →
      buildAnomalies avg variance l = some [] := by
  intro l
  induction l with
  | nil => intro h; rfl
  | cons t ts ih =>
      intro h
      rw [buildAnomalies, if_neg (by simp [h t (by simp)])]
      exact ih (fun x hx => h x (by simp [hx]))

theorem buildAnomalies_eq_filter (avg variance : ℚ) (h : avg ≠ 0) :
    ∀ l : List Txn, buildAnomalies avg variance l =
      some ((l.filter (fun t => exceedsThreshold t.amount avg variance)).map
        (fun t => ⟨t.tid, t.amount, t.category, t.tdate, t.amount / avg⟩)) := by
  intro l
  induction l with
  | nil => rfl
  | cons t ts ih =>
      rw [buildAnomalies]
      by_cases hf : exceedsThreshold t.amount avg variance = true
      · rw [if_pos hf, if_neg h, ih]
        simp [List.filter_cons, hf]
      · rw [if_neg hf, ih]
        simp [List.filter_cons, hf]

theorem buildAnomalies_of_avg_zero (variance : ℚ) :
    ∀ (l : List Txn) (res : List AnomalyRecord),
      buildAnomalies 0 variance l = some res →
      res = [] ∧ l.filter (fun t => exceedsThreshold t.amount 0 variance) = [] := by
  intro l
  induction l with
  | nil =>
      intro res h
      rw [buildAnomalies] at h
      exact ⟨(Option.some_inj.mp h).symm, rfl⟩
  | cons t ts ih =>
      intro res h
      rw [buildAnomalies] at h
      by_cases hf : exceedsThreshold t.amount 0 variance = true
      · rw [if_pos hf, if_pos rfl] at h
        exact absurd h (by simp)
      · rw [if_neg hf] at h
        obtain ⟨h1, h2⟩ := ih res h
        exact ⟨h1, by simp [List.filter_cons, hf, h2]⟩

theorem all_zero_of_sum_zero_nonneg :
    ∀ l : List ℚ, (∀ x ∈ l, 0 ≤ x) → l.sum = 0 → ∀ x ∈ l, x = 0 := by
  intro l
  induction l with
  | nil => simp
  | cons a as ih =>
      intro hpos hsum x hx
      have ha : 0 ≤ a := hpos a (by simp)
      have has : 0 ≤ as.sum := List.sum_nonneg (fun y hy => hpos y (by simp [hy]))
      rw [List.sum_cons] at hsum
      rcases List.mem_cons.mp hx with rfl | hx2
      · linarith
      · exact ih (fun y hy => hpos y (by simp [hy])) (by linarith) x hx2

theorem list_sum_nonpos : ∀ l : List ℚ, (∀ x ∈ l, x ≤ 0) → l.sum ≤ 0 := by
  intro l
  induction l with
  | nil => simp
  | cons a as ih =>
      intro h
      rw [List.sum_cons]
      have := h a (by simp)
      have := ih (fun y hy => h y (by simp [hy]))
      linarith

theorem all_zero_of_sum_zero_nonpos :
    ∀ l : List ℚ, (∀ x ∈ l, x ≤ 0) → l.sum = 0 → ∀ x ∈ l, x = 0 := by
  intro l
  induction l with
  | nil => simp
  | cons a as ih =>
      intro hneg hsum x hx
      have ha : a ≤ 0 := hneg a (by simp)
      have has : as.sum ≤ 0 := list_sum_nonpos as (fun y hy => hneg y (by simp [hy]))
      rw [List.sum_cons] at hsum
      rcases List.mem_cons.mp hx with rfl | hx2
      · linarith
      · exact ih (fun y hy => hneg y (by simp [hy])) (by linarith) x hx2

theorem getAnomalies_isSome_of_sign_consistent (txns : List Txn)
    (h : (∀ t ∈ txns, 0 ≤ t.amount) ∨ (∀ t ∈ txns, t.amount ≤ 0)) :
    (getAnomalies txns).isSome = true := by
  rw [getAnomalies]
  by_cases he : txns.isEmpty = true
  · rw [if_pos he]
    rfl
  · rw [if_neg he]
    simp only []
    by_cases ha : ((txns.map (fun t => t.amount)).sum /
        (((txns.map (fun t => t.amount)).length : ℕ) : ℚ)) = 0
    · have hlen : txns.length ≠ 0 := by
        cases txns with
        | nil => exact absurd rfl he
        | cons a as => simp
      have hsum : (txns.map (fun t => t.amount)).sum = 0 := by
        have hcast : (((txns.map (fun t => t.amount)).length : ℕ) : ℚ) ≠ 0 := by
          simp [hlen]
        exact (div_eq_zero_iff.mp ha).resolve_right hcast
      have hall : ∀ t ∈ txns, t.amount = 0 := by
        rcases h with h | h
        · intro t ht
          exact all_zero_of_sum_zero_nonneg (txns.map (fun t => t.amount))
            (by intro x hx
                obtain ⟨t2, ht2, rfl⟩ := List.mem_map.mp hx
                exact h t2 ht2) hsum t.amount (List.mem_map.mpr ⟨t, ht, rfl⟩)
        · intro t ht
          exact all_zero_of_sum_zero_nonpos (txns.map (fun t => t.amount))
            (by intro x hx
                obtain ⟨t2, ht2, rfl⟩ := List.mem_map.mp hx
                exact h t2 ht2) hsum t.amount (List.mem_map.mpr ⟨t, ht, rfl⟩)
      rw [ha, buildAnomalies_no_flags _ _ txns ?_]
      · rfl
      · intro t ht
        rw [exceedsThreshold, hall t ht]
        norm_num
    · rw [buildAnomalies_eq_filter _ _ ha txns]
      rfl

/-- C7 counterexample: on ten expense rows of mixed sign summing to zero
(one +9, nine −1) the anomaly threshold is exceeded by the +9 row while
the mean is 0, so `deviation_factor = amount / avg_amount` divides by zero
and `get_anomalies` raises instead of yielding a defined zero result. -/
theorem claim_C7_counterexample : getAnomalies mixedTxns = none := by
  norm_num [mixedTxns, getAnomalies, buildAnomalies, exceedsThreshold]

/-- C7 amended: the divisions guarded in the source — the timeline per-period
averages, the category percentage and per-category average, and the
velocity daily average — all yield a defined 0 on an empty/zero
denominator; the one unguarded division, `deviation_factor` in
`get_anomalies`, cannot fault on sign-consistent amounts (a zero mean then
forces all amounts to zero, flagging nothing), but faults on mixed-sign
inputs (see the counterexample). -/
theorem claim_C7_division_guards :
    (∀ total : ℚ, timelineAvg total [] = 0) ∧
    (∀ c : CatStat, (mkCatSummary 0 c).percentage_of_total = 0) ∧
    (∀ (totalExpenses : ℚ) (c : CatStat), c.count = 0 →
      (mkCatSummary totalExpenses c).avg_amount = 0) ∧
    (∀ days : ℕ, getSpendingVelocity [] days = ⟨0, "stable", days, 0⟩) ∧
    (∀ txns : List Txn,
      (∀ t ∈ txns, 0 ≤ t.amount) ∨ (∀ t ∈ txns, t.amount ≤ 0) →
      (getAnomalies txns).isSome = true) := by
  refine ⟨?_, ?_, ?_, ?_, ?_⟩
  · intro total; rfl
  · intro c; simp [mkCatSummary]
  · intro totalExpenses c hc; simp [mkCatSummary, hc]
  · intro days; rfl
  · exact getAnomalies_isSome_of_sign_consistent

/-- Witness for C7's amended statement: two signed (negative) expenses. -/
theorem claim_C7_witness : (getAnomalies [txFood30, txFood20]).isSome = true :=
  claim_C7_division_guards.2.2.2.2 [txFood30, txFood20]
    (Or.inr (by
      intro t ht
      rcases List.mem_cons.mp ht with rfl | ht2
      · norm_num [txFood30]
      · rcases List.mem_cons.mp ht2 with rfl | ht3
        · norm_num [txFood20]
        · simp at ht3))

/-- C8 counterexample: on ten signed expense rows (nine −10, one −8) the
code — which uses the raw signed amounts — flags the −8 row
(−8 > −9.8 + 2·0.6), while the claim's absolute-amount rule flags nothing
(8 is below 9.8 + 2·0.6 = 11): the flagged sets differ. -/
theorem claim_C8_counterexample :
    getAnomalies negTxns = some [⟨1, -8, "rent", 0, 40/49⟩] ∧
    specAbsAnomalyFlags negTxns = [] := by
  constructor
  · norm_num [negTxns, getAnomalies, buildAnomalies, exceedsThreshold]
  · norm_num [negTxns, specAbsAnomalyFlags, exceedsThreshold, List.filter]

/-- C8 amended: `get_anomalies` uses the RAW signed amounts: with mean and
population variance of the raw amounts, the returned records are the first
10 of the transactions whose raw amount strictly exceeds mean + 2·stddev,
each carrying `deviation_factor = amount / mean`; at most 10 records are
returned, and fewer than 2 transactions always yield the empty list. -/
theorem claim_C8_anomaly_detection (txns : List Txn) (recs : List AnomalyRecord)
    (h : getAnomalies txns = some recs) :
    recs.length ≤ 10 ∧
    (txns.length < 2 → recs = []) ∧
    recs = ((txns.filter (fun t => exceedsThreshold t.amount
        ((txns.map (fun t => t.amount)).sum / (txns.length : ℚ))
        (((txns.map (fun t => t.amount)).map (fun x =>
          (x - (txns.map (fun t => t.amount)).sum / (txns.length : ℚ)) ^ 2)).sum /
            (txns.length : ℚ)))).map
      (fun t => ⟨t.tid, t.amount, t.category, t.tdate,
        t.amount / ((txns.map (fun t => t.amount)).sum / (txns.length : ℚ))⟩)).take 10 := by
  have key : recs = ((txns.filter (fun t => exceedsThreshold t.amount
      ((txns.map (fun t => t.amount)).sum / (txns.length : ℚ))
      (((txns.map (fun t => t.amount)).map (fun x =>
        (x - (txns.map (fun t => t.amount)).sum / (txns.length : ℚ)) ^ 2)).sum /
          (txns.length : ℚ)))).map
      (fun t => ⟨t.tid, t.amount, t.category, t.tdate,
        t.amount / ((txns.map (fun t => t.amount)).sum / (txns.length : ℚ))⟩)).take 10 := by
    rw [getAnomalies] at h
    by_cases he : txns.isEmpty = true
    · have hnil : txns = [] := by
        cases txns with
        | nil => rfl
        | cons a as => simp at he
      subst hnil
      have h2 : some ([] : List AnomalyRecord) = some recs := by simpa using h
      simp only [List.filter_nil, List.map_nil, List.take_nil]
      exact (Option.some_inj.mp h2).symm
    · rw [if_neg he] at h
      simp only [List.length_map] at h
      cases hb : buildAnomalies
          ((txns.map (fun t => t.amount)).sum / (txns.length : ℚ))
          (((txns.map (fun t => t.amount)).map (fun x =>
            (x - (txns.map (fun t => t.amount)).sum / (txns.length : ℚ)) ^ 2)).sum /
              (txns.length : ℚ)) txns with
      | none =>
          rw [hb] at h
          exact absurd h (by simp)
      | some l =>
          rw [hb] at h
          simp only [Option.map_some', Option.some_inj] at h
          by_cases ha : ((txns.map (fun t => t.amount)).sum / (txns.length : ℚ)) = 0
          · rw [ha] at hb
            obtain ⟨hl, hfilt⟩ := buildAnomalies_of_avg_zero _ txns l hb
            rw [← h, hl, ha, hfilt]
            simp
          · rw [buildAnomalies_eq_filter _ _ ha txns] at hb
            rw [← h, Option.some_inj.mp hb]
  refine ⟨?_, ?_, key⟩
  · rw [key]
    simp [List.length_take]
  · intro hlen
    rw [key]
    cases txns with
    | nil => simp
    | cons t ts =>
        cases ts with
        | nil =>
            have hflag : exceedsThreshold t.amount t.amount 0 = false := by
              norm_num [exceedsThreshold]
            simp [List.filter_cons, hflag]
        | cons u us =>
            exfalso
            simp only [List.length_cons] at hlen
            omega

/-- Witness for C8's amended statement: two signed expenses, no anomaly. -/
theorem claim_C8_witness :
    getAnomalies [txFood30, txFood20] = some [] ∧
    ([] : List AnomalyRecord).length ≤ 10 :=
  ⟨by norm_num [getAnomalies, buildAnomalies, exceedsThreshold, txFood30, txFood20],
   (claim_C8_anomaly_detection [txFood30, txFood20] []
     (by norm_num [getAnomalies, buildAnomalies, exceedsThreshold,
       txFood30, txFood20])).1⟩

/-- Witness for C9 at a concrete two-transaction swap. -/
theorem claim_C9_witness :
    bucketTotals (getTimelineData monthlyFilters [txFood30, txSalary1000])
        (civilToOrd 2024 1 1) =
      bucketTotals (getTimelineData monthlyFilters [txSalary1000, txFood30])
        (civilToOrd 2024 1 1) :=
  (claim_C9_order_independence monthlyFilters .monthly 0 0
    [txFood30, txSalary1000] [txSalary1000, txFood30]
    (List.Perm.swap txSalary1000 txFood30 [])).1 (civilToOrd 2024 1 1)

end Stori

